import Mathlib

/-!
Verification development for the rolling-window temporal snapshot pipeline
(the `rolling_windows/` package of the source tree).  The embedding covers:

* `parquet.py` — `coerce_float_list_column`;
* `pipeline.py` — `ensure_base_graph`, `build_filter_predicates`, the
  two-stage per-window filter, the retry loop of `run_windows`, the
  skip-existing / manifest logic of `run_windows`;
* `dates.py` — `iter_period_windows` and its helpers;
* `link_prediction.py` — `run_link_prediction_workflow`.

Python machine floats only enter as probabilities, backoff durations and
projected property defaults; they are modelled as rationals (`ℚ`) or by a
tagged numeric element type.  Epoch-millisecond timestamps produced by
`datetime(year, month, 1, tzinfo=utc)` are modelled by the absolute month
index `12 * year + (month - 1)`, which is strictly monotone in, and
injective on, such timestamps.
-/

namespace RW

/-! ### parquet.py: `coerce_float_list_column` -/

/-- One element of a list-typed dataframe cell.  The exported snapshot
columns fed to `coerce_float_list_column` hold numbers, so an element is an
int or a float (tagged by how pandas typed it); the payload carries its
value. -/
inductive Elem where
  | eInt (n : Int)
  | eFloat (n : Int)
deriving DecidableEq

/-- Python `float(x)` on a numeric element: retags ints as floats. -/
def Elem.toFloatE : Elem → Elem
  | .eInt n => .eFloat n
  | .eFloat n => .eFloat n

/-- `isinstance(x, (float, int))`: every modelled element is numeric. -/
def Elem.isNumber : Elem → Bool
  | _ => true

/-- Whether the element is a Python float (not an int). -/
def Elem.isFloat : Elem → Bool
  | .eFloat _ => true
  | .eInt _ => false

/-- A list-typed column: one optional list per row; `none` models a null
cell (`NaN`/`None`). -/
abbrev ListColumn := List (Option (List Elem))

/-- `df[column].dropna().iloc[0] if not df[column].dropna().empty else None`:
the first non-null cell of the column, if any. -/
def firstValid : ListColumn → Option (List Elem)
  | [] => none
  | some v :: _ => some v
  | none :: rest => firstValid rest

/-- The fast-path guard of `coerce_float_list_column` (parquet.py:16):
`first_valid is not None and isinstance(first_valid, list) and
len(first_valid) > 0 and isinstance(first_valid[0], (float, int))`.
Cells are lists by construction of the model. -/
def fastPathHit (col : ListColumn) : Bool :=
  match firstValid col with
  | none => false
  | some [] => false
  | some (x :: _) => x.isNumber

/-- `coerce_float_list_column` (parquet.py:9-24) for a column present in the
frame: when the guard fires the column is returned unchanged ("Assume
valid, skip heavy iteration"); otherwise each cell becomes
`None if v is None else [float(x) for x in v]`. -/
def coerce_float_list_column (col : ListColumn) : ListColumn :=
  if fastPathHit col then col
  else col.map (fun c =>
    match c with
    | none => none
    | some v => some (v.map Elem.toFloatE))

/-! ### pipeline.py: `ensure_base_graph` -/

/-- The remote engine as `ensure_base_graph` observes it: whether a graph of
the configured name can be fetched by `gds.graph.get`, and what
`gds.graph.project` returns — a result row carrying `nodeCount` and
`relationshipCount`, or a raised exception. -/
structure ProjectionEngine where
  graphExists : Bool
  projectResult : Except String (Nat × Nat)

/-- Result of `ensure_base_graph`: the returned value (with the projected
counts when a projection ran) or the propagated exception, plus how many
projection requests were issued. -/
structure EnsureOutcome where
  result : Except String (Option (Nat × Nat))
  projectionCalls : Nat

/-- `ensure_base_graph` (pipeline.py:56-147): if the graph exists and
`rebuild` is false, return at once; otherwise drop it, project it, log the
reported counts and return — the counts are not inspected, and an exception
from the projection is logged and re-raised unchanged. -/
def ensure_base_graph (eng : ProjectionEngine) (rebuild : Bool) : EnsureOutcome :=
  if eng.graphExists && !rebuild then
    { result := .ok none, projectionCalls := 0 }
  else
    match eng.projectResult with
    | .ok counts => { result := .ok (some counts), projectionCalls := 1 }
    | .error e => { result := .error e, projectionCalls := 1 }

/-- Whether an `Except` value is a normal return. -/
def exceptOk {ε α : Type} : Except ε α → Bool
  | .ok _ => true
  | .error _ => false

/-! ### pipeline.py: `build_filter_predicates` and the two-stage filter -/

/-- A projected node: its labels and the temporal bounds projected as
`tStart`/`tEnd` (pipeline.py:95-110). -/
structure GNode where
  isBank : Bool
  isCompany : Bool
  isPerson : Bool
  tStart : Int
  tEnd : Int
deriving DecidableEq

/-- A projected relationship: endpoints are positions in the node list of
the base graph; `imputedFlag` is the projected `imputed_flag` (0 or 1). -/
structure GRel where
  src : Nat
  tgt : Nat
  relType : String
  tStart : Int
  tEnd : Int
  imputedFlag : Int
deriving DecidableEq

/-- The in-memory base projection. -/
structure TGraph where
  nodes : List GNode
  rels : List GRel

/-- A filtered sub-graph view: the surviving nodes (position in the base
graph paired with the node) and the surviving relationships. -/
structure WView where
  nodes : List (Nat × GNode)
  rels : List GRel

/-- The node predicate of `build_filter_predicates` (pipeline.py:156):
`(n:Bank OR n:Company OR n:Person) AND n.tStart < $end AND n.tEnd > $start`. -/
def nodeFilterPred (s e : Int) (n : GNode) : Bool :=
  (n.isBank || n.isCompany || n.isPerson) && decide (n.tStart < e) && decide (s < n.tEnd)

/-- The relationship predicate (pipeline.py:159-161): configured type,
temporal overlap, and
`(r:FAMILY = FALSE OR $includeImputed01 = 1.0 OR r.imputedFlag = 0.0)`. -/
def relFilterPred (relTypes : List String) (includeImputed01 : Int) (s e : Int)
    (r : GRel) : Bool :=
  relTypes.contains r.relType && decide (r.tStart < e) && decide (s < r.tEnd) &&
    (!(r.relType == "FAMILY") || includeImputed01 == 1 || r.imputedFlag == 0)

/-- Pass 1 (`gds.graph.filter` with the temporal predicates): keep the nodes
satisfying the node predicate; keep the relationships satisfying the
relationship predicate whose two endpoints both survive. -/
def temporalFilterView (g : TGraph) (relTypes : List String) (inc : Int)
    (s e : Int) : WView :=
  let kept := g.nodes.enum.filter (fun p => nodeFilterPred s e p.2)
  let ids := kept.map (fun p => p.1)
  { nodes := kept
    rels := g.rels.filter (fun r =>
      relFilterPred relTypes inc s e r && ids.contains r.src && ids.contains r.tgt) }

/-- Pass 2 (`gds.degree.mutate(temp_G, mutateProperty="active_degree")`):
GDS degree centrality with its default `NATURAL` orientation, i.e. the
out-degree of the node over the view. -/
def activeDegree (v : WView) (i : Nat) : Nat :=
  (v.rels.filter (fun r => r.src == i)).length

/-- Pass 3 node predicate (pipeline.py:376):
`n.active_degree > 0.0 OR n:Bank OR n:Company`. -/
def finalNodePred (v : WView) (p : Nat × GNode) : Bool :=
  decide (0 < activeDegree v p.1) || p.2.isBank || p.2.isCompany

/-- Pass 3 (`gds.graph.filter` of the temporal view with the participant
predicate and relationship filter `"*"`): keep the qualifying nodes and all
relationships whose endpoints both survive. -/
def structuralFilterView (v : WView) : WView :=
  let kept := v.nodes.filter (finalNodePred v)
  let ids := kept.map (fun p => p.1)
  { nodes := kept
    rels := v.rels.filter (fun r => ids.contains r.src && ids.contains r.tgt) }

/-- The complete two-stage window filter of `run_windows`
(pipeline.py:357-385). -/
def windowView (g : TGraph) (relTypes : List String) (inc : Int)
    (s e : Int) : WView :=
  structuralFilterView (temporalFilterView g relTypes inc s e)

/-- The default `rel_types` of `RollingWindowConfig` (config.py:28). -/
def defaultRelTypes : List String :=
  ["OWNERSHIP", "MANAGEMENT", "FAMILY"]

/-- A bank valid on `[0, 100)`. -/
def bankNode : GNode :=
  { isBank := true, isCompany := false, isPerson := false, tStart := 0, tEnd := 100 }

/-- A person valid on `[0, 100)`. -/
def personNode : GNode :=
  { isBank := false, isCompany := false, isPerson := true, tStart := 0, tEnd := 100 }

/-- An `OWNERSHIP` relationship valid on `[0, 100)`. -/
def ownRel (s t : Nat) : GRel :=
  { src := s, tgt := t, relType := "OWNERSHIP", tStart := 0, tEnd := 100,
    imputedFlag := 0 }

/-- The synthetic six-node scenario: two always-retain isolates (banks) and
four persons connected in mutually-linked pairs. -/
def sixNodeGraph : TGraph :=
  { nodes := [bankNode, bankNode, personNode, personNode, personNode, personNode]
    rels := [ownRel 2 3, ownRel 3 2, ownRel 4 5, ownRel 5 4] }

/-! ### dates.py: `iter_period_windows` -/

/-- `PeriodType` (dates.py:9-14). -/
inductive PeriodType where
  | yearly
  | quarterly
  | biannual
  | monthly
deriving DecidableEq

/-- Python `str.lower`, written over the character list so that it
evaluates by reduction. -/
def lowerString (s : String) : String :=
  ⟨s.data.map Char.toLower⟩

/-- `PeriodType(period_type.lower())` (dates.py:119): recognise the
normalised period string, or fail. -/
def PeriodType.ofString (s : String) : Option PeriodType :=
  if lowerString s = "yearly" then some .yearly
  else if lowerString s = "quarterly" then some .quarterly
  else if lowerString s = "biannual" then some .biannual
  else if lowerString s = "monthly" then some .monthly
  else none

/-- The `Window` dataclass (dates.py:17-26).  `start_months`/`end_months`
are the absolute month indices of the epoch-ms timestamps `start_ms` and
`end_ms` (see the header note). -/
structure Window where
  start_year : Int
  end_year_inclusive : Int
  start_months : Int
  end_months : Int
  period_type : PeriodType
  quarter : Option Nat := none
  half : Option Nat := none
  month : Option Nat := none
deriving DecidableEq

/-- Python truthiness of an optional int (`if quarter:` …). -/
def truthy : Option Nat → Bool
  | none => false
  | some n => n != 0

/-- The month number chosen by `period_start_ms` (dates.py:62-72). -/
def monthNumOf (quarter half month : Option Nat) : Nat :=
  if truthy quarter then (quarter.getD 1 - 1) * 3 + 1
  else if truthy half then (half.getD 1 - 1) * 6 + 1
  else if truthy month then month.getD 1
  else 1

/-- `period_start_ms` (dates.py:48-75), in absolute months:
`datetime(year, month_num, 1, tzinfo=utc)` becomes
`12 * year + (month_num - 1)`. -/
def period_start_months (year : Int) (quarter half month : Option Nat) : Int :=
  12 * year + ((monthNumOf quarter half month - 1 : Nat) : Int)

/-- `year_start_ms` (dates.py:42-45), in absolute months. -/
def year_start_months (year : Int) : Int :=
  12 * year

/-- The rollover loop `while end_q > p: end_q -= p; end_y += 1`
(dates.py:151-153, 180-182, 208-211) with per-granularity period count `p`
(4, 2 or 12; the `0 < p` guard is vacuous at every call site and only
serves termination). -/
def rollover (p : Nat) (q : Nat) (y : Int) : Nat × Int :=
  if h : 0 < p ∧ p < q then rollover p (q - p) (y + 1) else (q, y)
termination_by q
decreasing_by exact Nat.sub_lt (lt_trans h.1 h.2) h.1

/-- The window built by the yearly branch (dates.py:127-139). -/
def mkYearWindow (size : Nat) (y : Int) : Window :=
  { start_year := y
    end_year_inclusive := (y + size) - 1
    start_months := year_start_months y
    end_months := year_start_months (y + size)
    period_type := .yearly }

/-- The window built by the quarterly branch for year `y`, quarter `q`
(dates.py:144-165). -/
def mkQuarterWindow (size : Nat) (y : Int) (q : Nat) : Window :=
  let e := rollover 4 (q + size) y
  { start_year := y
    end_year_inclusive := if 1 < e.1 then e.2 else e.2 - 1
    start_months := period_start_months y (some q) none none
    end_months := period_start_months e.2 (some e.1) none none
    period_type := .quarterly
    quarter := some q }

/-- The window built by the biannual branch for year `y`, half `h`
(dates.py:173-194). -/
def mkHalfWindow (size : Nat) (y : Int) (h : Nat) : Window :=
  let e := rollover 2 (h + size) y
  { start_year := y
    end_year_inclusive := if 1 < e.1 then e.2 else e.2 - 1
    start_months := period_start_months y none (some h) none
    end_months := period_start_months e.2 none (some e.1) none
    period_type := .biannual
    half := some h }

/-- The window built by the monthly branch for year `y`, month `m`
(dates.py:202-223). -/
def mkMonthWindow (size : Nat) (y : Int) (m : Nat) : Window :=
  let e := rollover 12 (m + size) y
  { start_year := y
    end_year_inclusive := if 1 < e.1 then e.2 else e.2 - 1
    start_months := period_start_months y none none (some m)
    end_months := period_start_months e.2 none none (some e.1)
    period_type := .monthly
    month := some m }

/-- Python `range(a, b, s)` for a positive step `s`. -/
def pyRange (a b : Int) (s : Nat) : List Int :=
  (List.range (((b - a).toNat + s - 1) / s)).map
    (fun (i : Nat) => a + (s : Int) * (i : Int))

/-- The outer `for y in range(start_year, end_start_year + 1):` of the
quarterly/biannual/monthly branches, run for `count` consecutive years
starting at `y`, with `inner y` the windows the inner loop appends. -/
def periodLoop (inner : Int → List Window) (y : Int) : Nat → List Window
  | 0 => []
  | n + 1 => inner y ++ periodLoop inner (y + 1) n

/-- The inner `for q in range(1, 5):` of the quarterly branch. -/
def quarterInner (size : Nat) (y : Int) : List Window :=
  (List.range 4).map (fun q => mkQuarterWindow size y (q + 1))

/-- The inner `for h in range(1, 3):` of the biannual branch. -/
def halfInner (size : Nat) (y : Int) : List Window :=
  (List.range 2).map (fun h => mkHalfWindow size y (h + 1))

/-- The inner `for m in range(1, 13):` of the monthly branch. -/
def monthInner (size : Nat) (y : Int) : List Window :=
  (List.range 12).map (fun m => mkMonthWindow size y (m + 1))

/-- Walk for `everyNth`: `c` counts the elements still to skip before the
next pick. -/
def everyNthGo {α : Type} (k : Nat) : List α → Nat → List α
  | [], _ => []
  | x :: xs, 0 => x :: everyNthGo k xs (k - 1)
  | _ :: xs, c + 1 => everyNthGo k xs c

/-- Python slicing `l[::k]` for `k ≥ 1`: every `k`-th element from index 0. -/
def everyNth {α : Type} (l : List α) (k : Nat) : List α :=
  everyNthGo k l 0

/-- `if step_size > 1: windows = windows[::step_size]`
(dates.py:168-169, 197-198, 226-227). -/
def applyStep {α : Type} (l : List α) (k : Nat) : List α :=
  if 1 < k then everyNth l k else l

/-- The number of years visited by `range(start_year, end_start_year + 1)`. -/
def yearSpanCount (start_year end_start_year : Int) : Nat :=
  (end_start_year + 1 - start_year).toNat

/-- `iter_period_windows` (dates.py:78-229).  Validation errors become
`Except.error`; sizes are converted to `Nat` after the positivity check. -/
def iter_period_windows (start_year end_start_year : Int)
    (window_size step_size : Int) (period_type : String) :
    Except String (List Window) :=
  if window_size ≤ 0 then .error "window_size must be positive"
  else if step_size ≤ 0 then .error "step_size must be positive"
  else if end_start_year < start_year then .error "end_start_year must be >= start_year"
  else
    let size := window_size.toNat
    let step := step_size.toNat
    match PeriodType.ofString period_type with
    | none => .error "Invalid period_type"
    | some .yearly =>
        .ok ((pyRange start_year (end_start_year + 1) step).map (mkYearWindow size))
    | some .quarterly =>
        .ok (applyStep
          (periodLoop (quarterInner size) start_year
            (yearSpanCount start_year end_start_year)) step)
    | some .biannual =>
        .ok (applyStep
          (periodLoop (halfInner size) start_year
            (yearSpanCount start_year end_start_year)) step)
    | some .monthly =>
        .ok (applyStep
          (periodLoop (monthInner size) start_year
            (yearSpanCount start_year end_start_year)) step)

/-- Period length of each granularity, in months. -/
def monthsPer : PeriodType → Int
  | .yearly => 12
  | .quarterly => 3
  | .biannual => 6
  | .monthly => 1

/-! ### pipeline.py: the per-window retry loop of `run_windows`
(lines 347-624), processing path

`run_windows` re-runs a window's whole body on the transient Neo4j error
classes (`ServiceUnavailable`, `SessionExpired`, `ClientError`, `GqlError`);
any other exception propagates.  Every remote interaction of the body is an
event; an attempt is driven by a schedule value saying which stage (if any)
raises, and whether the link-prediction subroutine raises.  The model
follows the processing path with node and edge export both needed. -/

/-- How an exception raised by the window body is classified by the
`except` clause of the retry loop. -/
inductive ErrClass where
  | transientE
  | otherE
deriving DecidableEq

/-- The stages of the window body, in program order. -/
inductive Stage where
  | filterTemporal
  | degreeMutate
  | filterFinal
  | algorithms
  | streamNodes
  | streamEdges
  | postProcess
deriving DecidableEq

/-- Schedule for one attempt: the stage at which it raises (with the error
class), if any, and whether `run_link_prediction_workflow` raises. -/
structure AttemptSpec where
  failAt : Option (Stage × ErrClass)
  lpFails : Bool
deriving DecidableEq

/-- Observable events of the window loop. -/
inductive Ev where
  | dropGraph (name : String)
  | viewCreate (name : String)
  | viewRelease (name : String)
  | stageRun (s : Stage)
  | lpRun
  | lpErrorLogged
  | writeNodes
  | writeEdges
  | manifestAppend (skipped : Bool)
  | reconnect
  | ensureBase
  | waitBackoff (seconds : ℚ)
deriving DecidableEq

/-- What an attempt raises at a given stage, per its schedule. -/
def stageFail (spec : AttemptSpec) (s : Stage) : Option ErrClass :=
  match spec.failAt with
  | some (s', e) => if s' = s then some e else none
  | none => none

/-- Events and outcome of one iteration of the `while` body up to the end
of the two `with` blocks (pipeline.py:350-586): the clean-slate drops, pass
1 creating the temporal view, pass 2, pass 3 creating the window view, the
algorithm/stream/write stages, the link-prediction block with its local
`except Exception` (pipeline.py:553-561), the manifest append, and the
`with`-exits releasing the views on both the normal and the raising paths.
The result is the exception propagating out of the body, if any. -/
def attemptRun (name : String) (runLP : Bool) (spec : AttemptSpec) :
    List Ev × Except ErrClass Unit :=
  let temp := "temp_" ++ name
  let pre := [Ev.dropGraph name, Ev.dropGraph temp]
  match stageFail spec .filterTemporal with
  | some e => (pre ++ [.stageRun .filterTemporal], .error e)
  | none =>
  let ev1 := pre ++ [Ev.stageRun .filterTemporal, Ev.viewCreate temp]
  match stageFail spec .degreeMutate with
  | some e => (ev1 ++ [.stageRun .degreeMutate, .viewRelease temp], .error e)
  | none =>
  let ev2 := ev1 ++ [Ev.stageRun .degreeMutate]
  match stageFail spec .filterFinal with
  | some e => (ev2 ++ [.stageRun .filterFinal, .viewRelease temp], .error e)
  | none =>
  let ev3 := ev2 ++ [Ev.stageRun .filterFinal, Ev.viewCreate name]
  match stageFail spec .algorithms with
  | some e => (ev3 ++ [.stageRun .algorithms, .viewRelease name, .viewRelease temp], .error e)
  | none =>
  let ev4 := ev3 ++ [Ev.stageRun .algorithms]
  match stageFail spec .streamNodes with
  | some e => (ev4 ++ [.stageRun .streamNodes, .viewRelease name, .viewRelease temp], .error e)
  | none =>
  let ev5 := ev4 ++ [Ev.stageRun .streamNodes]
  match stageFail spec .streamEdges with
  | some e => (ev5 ++ [.stageRun .streamEdges, .viewRelease name, .viewRelease temp], .error e)
  | none =>
  let ev6 := ev5 ++ [Ev.stageRun .streamEdges]
  match stageFail spec .postProcess with
  | some e => (ev6 ++ [.stageRun .postProcess, .viewRelease name, .viewRelease temp], .error e)
  | none =>
  let ev7 := ev6 ++ [Ev.stageRun .postProcess, Ev.writeNodes, Ev.writeEdges]
  let ev8 := ev7 ++
    (if runLP then
      if spec.lpFails then [Ev.lpRun, Ev.lpErrorLogged] else [Ev.lpRun]
    else [])
  (ev8 ++ [Ev.manifestAppend false, Ev.viewRelease name, Ev.viewRelease temp], .ok ())

/-- Result of the whole retry loop for one window. -/
structure LoopRes where
  events : List Ev
  result : Except ErrClass Unit
  attemptsMade : Nat

/-- The `while attempt <= max_retries` loop (pipeline.py:348-624), started
at counter value `attempt` with `remaining = max_retries - attempt` retries
still allowed, so that the post-increment guard `attempt > max_retries` of
the `except` clause holds exactly when `remaining = 0`.  On success:
`break`, then the `finally` drops the temporal graph.  On a transient
error: increment the counter, re-raise once it exceeds `max_retries`;
otherwise reconnect, re-verify the base graph, sleep
`retry_backoff_s * 2 ** (attempt - 1)` seconds (pipeline.py:607-617), run
the `finally` drop and re-enter the body.  Any other error re-raises at
once (it is not caught by the `except` clause). -/
def loopGo (name : String) (runLP : Bool) (backoff : ℚ)
    (specs : Nat → AttemptSpec) : Nat → Nat → LoopRes
  | attempt, remaining =>
    let temp := "temp_" ++ name
    let ar := attemptRun name runLP (specs attempt)
    match ar.2 with
    | .ok _ =>
        { events := ar.1 ++ [Ev.dropGraph temp], result := .ok (),
          attemptsMade := attempt + 1 }
    | .error .otherE =>
        { events := ar.1 ++ [Ev.dropGraph temp], result := .error .otherE,
          attemptsMade := attempt + 1 }
    | .error .transientE =>
        match remaining with
        | 0 =>
            { events := ar.1 ++ [Ev.dropGraph temp],
              result := .error .transientE, attemptsMade := attempt + 1 }
        | r + 1 =>
            let rest := loopGo name runLP backoff specs (attempt + 1) r
            { events := ar.1 ++
                [Ev.reconnect, Ev.ensureBase,
                 Ev.waitBackoff (backoff * 2 ^ attempt), Ev.dropGraph temp] ++
                rest.events
              result := rest.result
              attemptsMade := rest.attemptsMade }

/-- The retry loop entered with `attempt = 0` (pipeline.py:347), i.e. with
the full budget of `max_retries` retries. -/
def runWindowLoop (name : String) (runLP : Bool) (maxRetries : Nat)
    (backoff : ℚ) (specs : Nat → AttemptSpec) : LoopRes :=
  loopGo name runLP backoff specs 0 maxRetries

/-- Fold computing the live temporary views after a list of events, given
the views live before it (most recently created first). -/
def liveViewsFrom (acc : List String) : List Ev → List String
  | [] => acc
  | Ev.viewCreate n :: rest => liveViewsFrom (n :: acc) rest
  | Ev.viewRelease n :: rest => liveViewsFrom (acc.erase n) rest
  | Ev.dropGraph _ :: rest => liveViewsFrom acc rest
  | Ev.stageRun _ :: rest => liveViewsFrom acc rest
  | Ev.lpRun :: rest => liveViewsFrom acc rest
  | Ev.lpErrorLogged :: rest => liveViewsFrom acc rest
  | Ev.writeNodes :: rest => liveViewsFrom acc rest
  | Ev.writeEdges :: rest => liveViewsFrom acc rest
  | Ev.manifestAppend _ :: rest => liveViewsFrom acc rest
  | Ev.reconnect :: rest => liveViewsFrom acc rest
  | Ev.ensureBase :: rest => liveViewsFrom acc rest
  | Ev.waitBackoff _ :: rest => liveViewsFrom acc rest

/-- The views still live after the events, starting from none. -/
def liveViews (l : List Ev) : List String :=
  liveViewsFrom [] l

/-- The events of the failed attempt number `k` (0-based) followed by the
recovery segment of the `except` clause and the `finally` drop, as the
amended claim orders them: reconnect, base-graph re-verification, then the
backoff wait of `backoff * 2 ^ k` seconds (`attempt - 1 = k` after the
increment). -/
def failSegment (name : String) (runLP : Bool) (backoff : ℚ)
    (spec : AttemptSpec) (k : Nat) : List Ev :=
  (attemptRun name runLP spec).1 ++
    [Ev.reconnect, Ev.ensureBase, Ev.waitBackoff (backoff * 2 ^ k),
     Ev.dropGraph ("temp_" ++ name)]

/-- Index of the first event satisfying `p`, if any. -/
def firstIdx (p : Ev → Bool) (l : List Ev) : Option Nat :=
  l.findIdx? p

/-- Whether an event is a backoff wait. -/
def isWaitEv : Ev → Bool
  | Ev.waitBackoff _ => true
  | _ => false

/-- Whether an event is the reconnect of the recovery path. -/
def isReconnectEv : Ev → Bool
  | Ev.reconnect => true
  | _ => false

/-- The order the claim asserts for the recovery path: some backoff wait
happens, and the first wait precedes the first reconnect. -/
def waitPrecedesReconnect (l : List Ev) : Bool :=
  match firstIdx isWaitEv l, firstIdx isReconnectEv l with
  | some i, some j => decide (i < j)
  | some _, none => true
  | _, _ => false

/-- Schedule with one transient failure (during the algorithm stage)
followed by a clean attempt. -/
def failThenOk : Nat → AttemptSpec := fun k =>
  if k = 0 then { failAt := some (.algorithms, .transientE), lpFails := false }
  else { failAt := none, lpFails := false }

/-! ### pipeline.py: skip-existing check, output schemas and the manifest
(`run_windows`, lines 229-326 and 563-632)

The window loop is modelled at file granularity: per window the filesystem
holds an optional node parquet and an optional edge parquet, each carrying
its column names and row count.  Windows are keyed by their
`window_graph_name`.  A processed (non-skipped) window issues remote-engine
calls, counted abstractly as one; a skipped window issues none (the skip
branch only reads parquet metadata).  `run_windows` is modelled with
`expand_embeddings=False` (its default; the flag only adds `emb_i`
columns). -/

/-- The configuration fields of `RollingWindowConfig` that the skip check
and the exported schemas depend on. -/
structure BConfig where
  export_feature_vectors : Bool
  export_feature_blocks : Bool
  run_hashgnn : Bool
  run_node2vec : Bool
  export_edges : Bool
  run_wcc : Bool
  run_louvain : Bool
  run_fastrp : Bool
  id_property : String
  edge_id_property : String

/-- The keys of `BANK_FEATS_BLOCKS` (feature_blocks.py:5-12). -/
def blockKeys : List String :=
  ["state_feats", "legal_feats", "governance_feats", "finance_feats",
   "ip_feats", "ops_feats"]

/-- `required_node_cols` (pipeline.py:250-259). -/
def requiredNodeCols (cfg : BConfig) : List String :=
  (if cfg.export_feature_vectors then ["bank_feats", "network_feats", "is_dead"] else []) ++
  (if cfg.export_feature_blocks then blockKeys ++ ["other_feats"] else []) ++
  (if cfg.run_hashgnn then ["hash_gnn_embedding"] else []) ++
  (if cfg.run_node2vec then ["node2vec_embedding"] else [])

/-- `required_edge_cols` (pipeline.py:276-282). -/
def requiredEdgeCols (cfg : BConfig) : List String :=
  ["sourceNodeId", "targetNodeId", "relationshipType",
   "source_" ++ cfg.edge_id_property, "target_" ++ cfg.edge_id_property]

/-- A parquet file: its column names and row count. -/
structure PFile where
  cols : List String
  rows : Nat
deriving DecidableEq

/-- The on-disk outputs of one window. -/
structure WinFiles where
  nodeFile : Option PFile
  edgeFile : Option PFile
deriving DecidableEq

/-- The output directory, keyed by `window_graph_name`. -/
def FS : Type := String → WinFiles

/-- `required.difference(existing)` over column names. -/
def missingCols (req existing : List String) : List String :=
  req.filter (fun c => !existing.contains c)

/-- The `need_nodes` decision (pipeline.py:261-272). -/
def needNodes (cfg : BConfig) (skipExisting : Bool) (wf : WinFiles) : Bool :=
  match wf.nodeFile with
  | some f =>
      if skipExisting && missingCols (requiredNodeCols cfg) f.cols == [] then false
      else true
  | none => true

/-- The `need_edges` decision (pipeline.py:274-292). -/
def needEdges (cfg : BConfig) (skipExisting : Bool) (wf : WinFiles) : Bool :=
  cfg.export_edges &&
    !(skipExisting &&
      (match wf.edgeFile with
       | some f => missingCols (requiredEdgeCols cfg) f.cols == []
       | none => false))

/-- `if not need_nodes and not need_edges:` — the skip branch is taken
(pipeline.py:294). -/
def windowSkipped (cfg : BConfig) (skipExisting : Bool) (wf : WinFiles) : Bool :=
  !needNodes cfg skipExisting wf && !needEdges cfg skipExisting wf

/-- The spec-side skip condition the claim states: the expected output
files exist and contain the full required column set for the current
configuration (the edge file is expected only when edge export is on). -/
def outputsComplete (cfg : BConfig) (wf : WinFiles) : Prop :=
  (∃ f, wf.nodeFile = some f ∧ ∀ c ∈ requiredNodeCols cfg, c ∈ f.cols) ∧
  (cfg.export_edges = true →
    ∃ f, wf.edgeFile = some f ∧ ∀ c ∈ requiredEdgeCols cfg, c ∈ f.cols)

/-- The property list returned by `run_window_algorithms`
(metrics.py:14-146); `hasFamily` is `"FAMILY" in G.relationship_types()`. -/
def algorithmProperties (cfg : BConfig) (hasFamily : Bool) : List String :=
  ["page_rank", "in_degree", "out_degree", "out_degree"] ++
  (if hasFamily then ["family_degree"] else []) ++
  ["betweenness", "closeness", "eigenvector"] ++
  (if cfg.run_wcc then ["wcc"] else []) ++
  (if cfg.run_louvain then ["community_louvain"] else []) ++
  (if cfg.run_fastrp then ["fastrp_embedding"] else []) ++
  (if cfg.run_hashgnn then ["hash_gnn_embedding"] else []) ++
  (if cfg.run_node2vec then ["node2vec_embedding"] else [])

/-- Worker of `_unique_preserve_order` with its `seen` set. -/
def upoGo (seen : List String) : List String → List String
  | [] => []
  | v :: rest =>
      if seen.contains v then upoGo seen rest
      else v :: upoGo (v :: seen) rest

/-- `_unique_preserve_order` (pipeline.py:31-39). -/
def uniquePreserveOrder (l : List String) : List String :=
  upoGo [] l

/-- The GDS properties streamed for the node frame (pipeline.py:391-401):
the algorithm outputs, `is_dead` when feature vectors are exported, and
`gds_id`, deduplicated preserving order. -/
def streamedProperties (cfg : BConfig) (hasFamily : Bool) : List String :=
  uniquePreserveOrder
    (algorithmProperties cfg hasFamily ++
      (if cfg.export_feature_vectors then ["is_dead"] else []) ++ ["gds_id"])

/-- `db_node_props` (pipeline.py:403-410). -/
def dbNodeProperties (cfg : BConfig) : List String :=
  [cfg.id_property] ++
  (if cfg.export_edges && cfg.edge_id_property != cfg.id_property
    then [cfg.edge_id_property] else []) ++
  (if cfg.export_feature_vectors then ["bank_feats", "network_feats"]
   else if cfg.export_feature_blocks then ["bank_feats"] else [])

/-- The window metadata columns attached to both frames
(pipeline.py:465-470, 537-542). -/
def windowMetaCols : List String :=
  ["window_start_ms", "window_end_ms", "window_start_year",
   "window_end_year_inclusive", "window_graph_name", "params_hash"]

/-- The node frame columns right before the feature-block slicing
(pipeline.py:389-502): the streamed frame (`nodeId`, properties, database
properties, `nodeLabels`), the `entity_id` merge, the window metadata,
`total_degree` when both degree columns are present, and `fcr_temporal`. -/
def preBlockNodeCols (cfg : BConfig) (hasFamily : Bool) : List String :=
  let base := ["nodeId"] ++ streamedProperties cfg hasFamily ++
    dbNodeProperties cfg ++ ["nodeLabels", "entity_id"] ++ windowMetaCols
  base ++
    (if base.contains "in_degree" && base.contains "out_degree"
      then ["total_degree"] else []) ++ ["fcr_temporal"]

/-- The column set of the node parquet a recomputation writes
(pipeline.py:389-533): the pre-block frame plus the feature blocks when
block export is enabled and `bank_feats` is present. -/
def writtenNodeCols (cfg : BConfig) (hasFamily : Bool) : List String :=
  preBlockNodeCols cfg hasFamily ++
    (if cfg.export_feature_blocks && (preBlockNodeCols cfg hasFamily).contains "bank_feats"
      then blockKeys ++ ["other_feats"] else [])

/-- The column set of the edge parquet a recomputation writes
(`export_window_edges`, pipeline.py:168-198, plus the metadata columns of
lines 536-543). -/
def writtenEdgeCols (cfg : BConfig) : List String :=
  ["sourceNodeId", "targetNodeId", "relationshipType",
   "source_" ++ cfg.edge_id_property, "target_" ++ cfg.edge_id_property] ++
  windowMetaCols ++ ["edge_id_property"]

/-- A manifest row (the fields the claims speak about;
pipeline.py:305-325 and 564-584). -/
structure MRow where
  window : String
  node_count : Nat
  edge_count : Nat
  skipped_existing : Bool
deriving DecidableEq

/-- Pointwise filesystem update. -/
def updateFS (fs : FS) (w : String) (wf : WinFiles) : FS :=
  fun v => if v = w then wf else fs v

/-- The body of the window loop for one window, successful case: either the
skip branch (manifest row with `skipped_existing=True`, row counts read
from the existing files, no engine call), or the processing branch (rewrite
whichever of the two files is needed, manifest row with
`skipped_existing=False`; at least one engine call, counted as 1). -/
def processWindow (cfg : BConfig) (skipExisting hasFamily : Bool)
    (nodeRows edgeRows : Nat) (fs : FS) (w : String) : FS × MRow × Nat :=
  let wf := fs w
  if windowSkipped cfg skipExisting wf then
    (fs,
     { window := w
       node_count := (wf.nodeFile.map PFile.rows).getD 0
       edge_count := (wf.edgeFile.map PFile.rows).getD 0
       skipped_existing := true },
     0)
  else
    let nn := needNodes cfg skipExisting wf
    let ne := needEdges cfg skipExisting wf
    let wf' : WinFiles :=
      { nodeFile := if nn then some ⟨writtenNodeCols cfg hasFamily, nodeRows⟩ else wf.nodeFile
        edgeFile := if ne then some ⟨writtenEdgeCols cfg, edgeRows⟩ else wf.edgeFile }
    (updateFS fs w wf',
     { window := w
       node_count := if nn then nodeRows else 0
       edge_count := if ne then edgeRows else 0
       skipped_existing := false },
     1)

/-- Whether processing a window completes or raises an error that the retry
budget cannot absorb (a fatal abort, or an interruption between windows —
either way the loop exits through the `finally`). -/
inductive WOutcome where
  | ok
  | fatal
deriving DecidableEq

/-- The window loop: process the windows in order, collecting manifest rows
in memory; the first window whose (non-skipped) processing ends fatally
stops the loop.  Returns the rows, the final filesystem, the number of
remote-engine calls and whether the loop aborted. -/
def windowsGo (cfg : BConfig) (skipExisting hasFamily : Bool)
    (nodeRows edgeRows : String → Nat) (outcome : String → WOutcome) :
    List String → FS → List MRow × FS × Nat × Bool
  | [], fs => ([], fs, 0, false)
  | w :: rest, fs =>
      if windowSkipped cfg skipExisting (fs w) then
        let r := processWindow cfg skipExisting hasFamily
          (nodeRows w) (edgeRows w) fs w
        let rec' := windowsGo cfg skipExisting hasFamily nodeRows edgeRows
          outcome rest r.1
        (r.2.1 :: rec'.1, rec'.2.1, r.2.2 + rec'.2.2.1, rec'.2.2.2)
      else
        match outcome w with
        | .fatal => ([], fs, 1, true)
        | .ok =>
            let r := processWindow cfg skipExisting hasFamily
              (nodeRows w) (edgeRows w) fs w
            let rec' := windowsGo cfg skipExisting hasFamily nodeRows edgeRows
              outcome rest r.1
            (r.2.1 :: rec'.1, rec'.2.1, r.2.2 + rec'.2.2.1, rec'.2.2.2)

/-- Result of one `run_windows` invocation at this granularity. -/
structure RunRes where
  manifest : List MRow
  fs : FS
  engineCalls : Nat
  aborted : Bool
  manifestWrites : Nat

/-- `run_windows` from the `try` at pipeline.py:233 onwards: run the loop,
then — in the `finally` (pipeline.py:629-632) — aggregate the in-memory
rows and write the manifest file exactly once, however the loop exited. -/
def run_windows (cfg : BConfig) (skipExisting hasFamily : Bool)
    (nodeRows edgeRows : String → Nat) (outcome : String → WOutcome)
    (windows : List String) (fs : FS) : RunRes :=
  let r := windowsGo cfg skipExisting hasFamily nodeRows edgeRows outcome windows fs
  { manifest := r.1
    fs := r.2.1
    engineCalls := r.2.2.1
    aborted := r.2.2.2
    manifestWrites := 1 }

/-- The default `RollingWindowConfig` flags (config.py:25-73) at this
model's granularity. -/
def cfgDefault : BConfig :=
  { export_feature_vectors := true
    export_feature_blocks := true
    run_hashgnn := false
    run_node2vec := false
    export_edges := true
    run_wcc := true
    run_louvain := true
    run_fastrp := true
    id_property := "Id"
    edge_id_property := "Id" }

/-- An output directory with no files. -/
def emptyFS : FS := fun _ => { nodeFile := none, edgeFile := none }

/-- A fixture: window `w1` fully written, window `w2` with a node parquet
missing every required column but `bank_feats`. -/
def driftFS : FS := fun w =>
  if w = "w2" then
    { nodeFile := some ⟨["bank_feats"], 3⟩
      edgeFile := some ⟨writtenEdgeCols cfgDefault, 7⟩ }
  else
    { nodeFile := some ⟨writtenNodeCols cfgDefault false, 5⟩
      edgeFile := some ⟨writtenEdgeCols cfgDefault, 7⟩ }

/-! ### link_prediction.py: `run_link_prediction_workflow` (lines 402-567)

The sklearn training internals are abstracted as the outcome of the model
horse race: `none` when every variant failed, otherwise the best variant's
name and its `predict_proba` scoring function on candidate rows.  What the
model embeds from the source is the workflow's interaction with the graph
store (two read queries, nothing else), the candidate construction, the
threshold filter, and the early-return structure. -/

/-- A `SIM_NAME` pair row as fetched by `fetch_sim_name_pairs`. -/
structure SimRow where
  source_id : Nat
  target_id : Nat
deriving DecidableEq

/-- An official `FAMILY` edge row as fetched by
`fetch_official_family_edges`. -/
structure FamRow where
  source_id : Nat
  target_id : Nat
deriving DecidableEq

/-- A graph-store operation issued through the GDS client. -/
inductive StoreOp where
  | cypherRead (query : String)
  | cypherWrite (query : String)
deriving DecidableEq

/-- Whether the operation mutates the persistent graph store. -/
def StoreOp.isWrite : StoreOp → Bool
  | .cypherWrite _ => true
  | .cypherRead _ => false

/-- A predicted edge row of the returned frame (link_prediction.py:556-559). -/
structure PredEdge where
  source_id : Nat
  target_id : Nat
  probability : ℚ
  window_graph_name : String
  model_variant : String
deriving DecidableEq

/-- Membership in the bidirectional `family_set`
(link_prediction.py:483-486): the pair appears as a `FAMILY` edge in either
orientation. -/
def inFamilySet (family : List FamRow) (s t : Nat) : Bool :=
  family.any (fun r =>
    (r.source_id == s && r.target_id == t) ||
    (r.source_id == t && r.target_id == s))

/-- Helper for substring membership: does `subL` occur in the list? -/
def containsSubAux (subL : List Char) : List Char → Bool
  | [] => subL.isEmpty
  | c :: rest => subL.isPrefixOf (c :: rest) || containsSubAux subL rest

/-- Python substring membership `sub in s`. -/
def containsSub (s sub : String) : Bool :=
  containsSubAux sub.toList s.toList

/-- `min_training_samples` of `LinkPredictionConfig`
(link_prediction.py:41). -/
def minTrainingSamples : Nat := 100

/-- The size of the frame built by `build_training_data`
(link_prediction.py:122-188): all positives plus the hard negatives,
subsampled to at most `int(n_positives * max_negatives_ratio)` with the
default ratio 1.0. -/
def trainingSize (simName : List SimRow) (family : List FamRow) : Nat :=
  let negatives := simName.filter (fun r => !inFamilySet family r.source_id r.target_id)
  family.length + min negatives.length family.length

/-- The candidate pairs the selected model scores
(link_prediction.py:488-530): `SIM_NAME` pairs not already `FAMILY`, minus
— when the best variant uses FastRP embeddings — the candidates for which
either endpoint has no embedding in the node frame. -/
def scoredCandidates (simName : List SimRow) (family : List FamRow)
    (variant : String) (hasEmb : Nat → Bool) : List SimRow :=
  let candidates := simName.filter (fun r => !inFamilySet family r.source_id r.target_id)
  if containsSub variant "fastrp" then
    candidates.filter (fun r => hasEmb r.source_id && hasEmb r.target_id)
  else candidates

/-- `run_link_prediction_workflow` (link_prediction.py:402-567).  Returns
the optional predicted-edges frame and the list of graph-store operations
issued: the `SIM_NAME` read, then — unless the first fetch was empty — the
`FAMILY` read.  Early returns: no `SIM_NAME` rows, no official `FAMILY`
rows, too few training samples, or every variant failed.  Otherwise the
pairs scored strictly above the threshold are returned, tagged with the
window and the winning variant. -/
def run_link_prediction_workflow (simName : List SimRow) (family : List FamRow)
    (race : Option (String × (SimRow → ℚ))) (hasEmb : Nat → Bool)
    (lpThreshold : ℚ) (windowName : String) :
    Option (List PredEdge) × List StoreOp :=
  let ops0 := [StoreOp.cypherRead "MATCH (p1:Person)-[s:SIM_NAME]->(p2:Person) RETURN ..."]
  if simName.isEmpty then (none, ops0)
  else
    let ops1 := ops0 ++
      [StoreOp.cypherRead "MATCH (p1:Person)-[f:FAMILY]->(p2:Person) WHERE f.source <> 'imputed' RETURN ..."]
    if family.isEmpty then (none, ops1)
    else if trainingSize simName family < minTrainingSamples then (none, ops1)
    else
      match race with
      | none => (none, ops1)
      | some (variant, score) =>
          let candidates := simName.filter (fun r => !inFamilySet family r.source_id r.target_id)
          if candidates.isEmpty then (some [], ops1)
          else
            let scored := scoredCandidates simName family variant hasEmb
            (some ((scored.filter (fun r => lpThreshold < score r)).map (fun r =>
              { source_id := r.source_id
                target_id := r.target_id
                probability := score r
                window_graph_name := windowName
                model_variant := variant })), ops1)

/-- The pipeline's handling of the returned frame (pipeline.py:552-559):
when it is non-`None` and non-empty it is written to the window's
`predicted_edges_<window>.parquet`, overwriting any previous file; otherwise
the file is left untouched. -/
def savePredictions (prev : Option (List PredEdge))
    (result : Option (List PredEdge)) : Option (List PredEdge) :=
  match result with
  | some l => if l.isEmpty then prev else some l
  | none => prev

/-- One `SIM_NAME` candidate pair disjoint from the family fixture. -/
def simFixture : List SimRow := [{ source_id := 1, target_id := 2 }]

/-- One hundred official `FAMILY` edges (enough for the
`min_training_samples` gate) on identifiers disjoint from the candidate. -/
def famFixture : List FamRow :=
  (List.range 100).map (fun j => { source_id := j + 2000, target_id := j + 3000 })

/-! ## Theorems -/

/-- `float(x)` always yields a float. -/
theorem toFloatE_isFloat (x : Elem) : (Elem.toFloatE x).isFloat = true := by
  cases x <;> rfl

/-- **C9, counterexample.**  The claim says every list-typed column is
coerced so that all elements of non-null values are floats.  On the column
whose single cell is the int list `[1]`, the fast-path guard of
`coerce_float_list_column` fires (the first non-null value is a non-empty
list headed by a number) and the column is returned unchanged, so the
output still holds an int, not a float. -/
theorem c9_fastpath_keeps_ints :
    coerce_float_list_column [some [Elem.eInt 1]] = [some [Elem.eInt 1]] ∧
    Elem.isFloat (Elem.eInt 1) = false := by
  exact ⟨rfl, rfl⟩

/-- **C9, amended.**  `coerce_float_list_column` coerces every non-null
cell to an all-float list and keeps nulls null — but only when its
fast-path guard does not fire (the first non-null value is absent, empty,
or not number-headed); when the guard fires the column is returned
unchanged, ints included. -/
theorem c9_coercion (col : ListColumn) :
    (fastPathHit col = false →
      (∀ v, some v ∈ coerce_float_list_column col → ∀ x ∈ v, x.isFloat = true) ∧
      ∀ i : Nat, (coerce_float_list_column col)[i]? = some none ↔ col[i]? = some none) ∧
    (fastPathHit col = true → coerce_float_list_column col = col) := by
  constructor
  · intro h
    constructor
    · intro v hv x hx
      unfold coerce_float_list_column at hv
      rw [h] at hv
      simp only [Bool.false_eq_true, if_false, List.mem_map] at hv
      obtain ⟨c, _, hc⟩ := hv
      match c with
      | none => simp at hc
      | some v' =>
          simp only [Option.some.injEq] at hc
          subst hc
          obtain ⟨y, _, hy⟩ := List.mem_map.mp hx
          rw [← hy]
          exact toFloatE_isFloat y
    · intro i
      unfold coerce_float_list_column
      rw [h]
      simp only [Bool.false_eq_true, if_false, List.getElem?_map]
      match hcol : col[i]? with
      | none => simp
      | some none => simp
      | some (some v) => simp
  · intro h
    unfold coerce_float_list_column
    rw [h]
    simp

/-- **C9, witness.**  The amended theorem applied to the column
`[null, [], [2]]`: its fast path does not fire, so the coerced cells are
all-float. -/
theorem c9_witness :
    fastPathHit [none, some [], some [Elem.eInt 2]] = false ∧
    Elem.isFloat (Elem.eFloat 2) = true := by
  refine ⟨by decide, ?_⟩
  exact ((c9_coercion [none, some [], some [Elem.eInt 2]]).1 (by decide)).1
    [Elem.eFloat 2] (by decide) (Elem.eFloat 2) (by decide)

/-- **C4, counterexample.**  The claim says `ensure_base_graph` fails
fatally with a `ProjectionError` when the projection reports zero nodes or
zero relationships.  On an engine whose projection returns the counts
`(0, 0)`, `ensure_base_graph` returns normally with those counts — there is
no zero-count validation (and no `ProjectionError` anywhere in the
pipeline). -/
theorem c4_zero_counts_accepted :
    (ensure_base_graph ⟨false, .ok (0, 0)⟩ false).result = .ok (some (0, 0)) ∧
    exceptOk (ensure_base_graph ⟨false, .ok (0, 0)⟩ false).result = true := by
  exact ⟨rfl, rfl⟩

/-- **C4, amended.**  `ensure_base_graph` performs no count validation at
all: it returns normally exactly when the graph already exists without a
rebuild request or the engine's projection call itself succeeds — whatever
node/relationship counts the engine reports, zero included — and it issues
at most one projection request (no retry). -/
theorem c4_ensure_base_graph (eng : ProjectionEngine) (rebuild : Bool) :
    exceptOk (ensure_base_graph eng rebuild).result
      = (eng.graphExists && !rebuild || exceptOk eng.projectResult) ∧
    (ensure_base_graph eng rebuild).projectionCalls ≤ 1 := by
  obtain ⟨ge, pr⟩ := eng
  cases ge <;> cases rebuild <;> cases pr <;>
    simp [ensure_base_graph, exceptOk]

/-- A pair drawn from `l.enumFrom n` carries an element of `l`. -/
theorem snd_mem_of_mem_enumFrom {α : Type} :
    ∀ (l : List α) (n : Nat) (p : Nat × α), p ∈ l.enumFrom n → p.2 ∈ l := by
  intro l
  induction l with
  | nil => intro n p hp; simp [List.enumFrom] at hp
  | cons x xs ih =>
      intro n p hp
      simp only [List.enumFrom] at hp
      rcases List.mem_cons.mp hp with h | h
      · subst h; exact List.mem_cons_self _ _
      · exact List.mem_cons_of_mem _ (ih (n + 1) p h)

/-- **C6.**  The structural (second) filter stage keeps a node of the
temporal-stage view if and only if its computed degree over that view (the
GDS degree mutation with its default `NATURAL` orientation) is positive or
the node is of an always-retain category (`Bank` or `Company`); and a
window overlapping no node's validity interval yields zero retained
nodes. -/
theorem c6_structural_stage (g : TGraph) (relTypes : List String)
    (inc s e : Int) :
    (∀ p, p ∈ (windowView g relTypes inc s e).nodes ↔
      (p ∈ (temporalFilterView g relTypes inc s e).nodes ∧
        (0 < activeDegree (temporalFilterView g relTypes inc s e) p.1 ∨
          p.2.isBank = true ∨ p.2.isCompany = true))) ∧
    ((∀ n ∈ g.nodes, ¬(n.tStart < e ∧ s < n.tEnd)) →
      (windowView g relTypes inc s e).nodes = []) := by
  constructor
  · intro p
    simp only [windowView, structuralFilterView, List.mem_filter,
      finalNodePred, Bool.or_eq_true, decide_eq_true_eq]
    tauto
  · intro h
    have hkept : (temporalFilterView g relTypes inc s e).nodes = [] := by
      simp only [temporalFilterView]
      rw [List.filter_eq_nil_iff]
      intro p hp
      have hmem : p.2 ∈ g.nodes := snd_mem_of_mem_enumFrom g.nodes 0 p hp
      have h2 := h p.2 hmem
      simp only [nodeFilterPred, Bool.and_eq_true, decide_eq_true_eq]
      intro hcontra
      exact h2 ⟨hcontra.1.2, hcontra.2⟩
    simp only [windowView, structuralFilterView, hkept, List.filter_nil]

/-- **C6, witness.**  The six-node scenario: over a window covering every
validity interval the structural filter retains all six nodes (the two bank
isolates unconditionally, the four connected persons by positive degree),
and over a disjoint window it retains none — the second part by the
theorem, with its hypothesis checked on the concrete graph. -/
theorem c6_witness :
    (windowView sixNodeGraph defaultRelTypes 0 0 100).nodes.length = 6 ∧
    (windowView sixNodeGraph defaultRelTypes 0 200 300).nodes = [] := by
  refine ⟨by decide, ?_⟩
  exact (c6_structural_stage sixNodeGraph defaultRelTypes 0 200 300).2 (by decide)

/-- The outcome of one attempt is decided by its schedule alone: the error
of the failing stage propagates, a failure-free body returns normally (a
link-prediction failure is absorbed by its local handler). -/
theorem attemptRun_snd (name : String) (runLP : Bool) (spec : AttemptSpec) :
    (attemptRun name runLP spec).2 =
      match spec.failAt with
      | some (_, e) => .error e
      | none => .ok () := by
  obtain ⟨failAt, lp⟩ := spec
  match failAt with
  | none => rfl
  | some (st, e) => cases st <;> rfl

/-- `liveViewsFrom` distributes over concatenation of event lists. -/
theorem liveViewsFrom_append (l1 l2 : List Ev) (acc : List String) :
    liveViewsFrom acc (l1 ++ l2) = liveViewsFrom (liveViewsFrom acc l1) l2 := by
  induction l1 generalizing acc with
  | nil => rfl
  | cons x xs ih => cases x <;> simp [liveViewsFrom, ih]

/-- Every attempt's event list is balanced: whatever views were live before
it are exactly the views live after it, on every exit path of the body. -/
theorem liveViewsFrom_attemptRun (name : String) (runLP : Bool)
    (spec : AttemptSpec) (acc : List String) :
    liveViewsFrom acc (attemptRun name runLP spec).1 = acc := by
  obtain ⟨failAt, lp⟩ := spec
  match failAt with
  | none =>
      cases runLP <;> cases lp <;>
        simp [attemptRun, stageFail, liveViewsFrom]
  | some (st, e) =>
      cases st <;> simp [attemptRun, stageFail, liveViewsFrom]

/-- The retry loop preserves view balance: its whole event trace releases
every view it creates. -/
theorem liveViewsFrom_loopGo (name : String) (runLP : Bool) (b : ℚ)
    (specs : Nat → AttemptSpec) :
    ∀ (remaining attempt : Nat) (acc : List String),
      liveViewsFrom acc (loopGo name runLP b specs attempt remaining).events = acc := by
  intro remaining
  induction remaining with
  | zero =>
      intro attempt acc
      rw [loopGo]
      split <;>
        simp [liveViewsFrom_append, liveViewsFrom_attemptRun, liveViewsFrom]
  | succ r ih =>
      intro attempt acc
      rw [loopGo]
      split <;>
        simp [liveViewsFrom_append, liveViewsFrom_attemptRun, liveViewsFrom, ih]

/-- **C3.**  For every window and on every exit path of its processing —
normal completion, an exception at any stage of the filter/algorithms/
export body, and the retry path — both the intermediate temporal-only view
and the final filtered window view are released before the window's
processing ends: no temporary view is still live after a single attempt,
nor after the whole retry loop, so none is live when the next window's
filter stage begins or when an error propagates out. -/
theorem c3_views_released (name : String) (runLP : Bool) (spec : AttemptSpec)
    (maxRetries : Nat) (b : ℚ) (specs : Nat → AttemptSpec) :
    liveViews (attemptRun name runLP spec).1 = [] ∧
    liveViews (runWindowLoop name runLP maxRetries b specs).events = [] := by
  constructor
  · exact liveViewsFrom_attemptRun name runLP spec []
  · exact liveViewsFrom_loopGo name runLP b specs maxRetries 0 []

/-- A clean-schedule body returns normally at once: the loop stops after
one attempt with the success events. -/
theorem loopGo_ok (name : String) (runLP : Bool) (b : ℚ)
    (specs : Nat → AttemptSpec) (attempt remaining : Nat)
    (h : (specs attempt).failAt = none) :
    loopGo name runLP b specs attempt remaining =
      { events := (attemptRun name runLP (specs attempt)).1 ++
          [Ev.dropGraph ("temp_" ++ name)]
        result := .ok ()
        attemptsMade := attempt + 1 } := by
  have h2 := attemptRun_snd name runLP (specs attempt)
  rw [h] at h2
  cases remaining with
  | zero => simp only [loopGo]; rw [h2]
  | succ r => simp only [loopGo]; rw [h2]

/-- A transiently-failing attempt with no retries left re-raises. -/
theorem loopGo_transient_stop (name : String) (runLP : Bool) (b : ℚ)
    (specs : Nat → AttemptSpec) (attempt : Nat) (s : Stage)
    (h : (specs attempt).failAt = some (s, .transientE)) :
    loopGo name runLP b specs attempt 0 =
      { events := (attemptRun name runLP (specs attempt)).1 ++
          [Ev.dropGraph ("temp_" ++ name)]
        result := .error .transientE
        attemptsMade := attempt + 1 } := by
  have h2 := attemptRun_snd name runLP (specs attempt)
  rw [h] at h2
  simp only [loopGo]
  rw [h2]

/-- A transiently-failing attempt with retries left recovers — reconnect,
base-graph re-verification, backoff wait of `b * 2 ^ attempt` seconds —
and re-enters the body with the counter incremented. -/
theorem loopGo_transient_step (name : String) (runLP : Bool) (b : ℚ)
    (specs : Nat → AttemptSpec) (attempt r : Nat) (s : Stage)
    (h : (specs attempt).failAt = some (s, .transientE)) :
    loopGo name runLP b specs attempt (r + 1) =
      { events := (attemptRun name runLP (specs attempt)).1 ++
          [Ev.reconnect, Ev.ensureBase, Ev.waitBackoff (b * 2 ^ attempt),
           Ev.dropGraph ("temp_" ++ name)] ++
          (loopGo name runLP b specs (attempt + 1) r).events
        result := (loopGo name runLP b specs (attempt + 1) r).result
        attemptsMade := (loopGo name runLP b specs (attempt + 1) r).attemptsMade } := by
  have h2 := attemptRun_snd name runLP (specs attempt)
  rw [h] at h2
  simp only [loopGo]
  rw [h2]

/-- Trace of the loop on `M` consecutive transient failures followed by a
clean attempt, generalised over the starting counter value. -/
theorem loopGo_fail_then_ok (name : String) (runLP : Bool) (b : ℚ)
    (specs : Nat → AttemptSpec) :
    ∀ (M attempt remaining : Nat), M ≤ remaining →
    (∀ k, attempt ≤ k → k < attempt + M →
      ∃ s, (specs k).failAt = some (s, ErrClass.transientE)) →
    (specs (attempt + M)).failAt = none →
    loopGo name runLP b specs attempt remaining =
      { events := (List.range' attempt M).flatMap
            (fun k => failSegment name runLP b (specs k) k) ++
          ((attemptRun name runLP (specs (attempt + M))).1 ++
            [Ev.dropGraph ("temp_" ++ name)])
        result := .ok ()
        attemptsMade := attempt + M + 1 } := by
  intro M
  induction M with
  | zero =>
      intro attempt remaining _ _ hok
      rw [loopGo_ok name runLP b specs attempt remaining (by simpa using hok)]
      simp [List.range']
  | succ m ih =>
      intro attempt remaining hle hfail hok
      obtain ⟨s, hs⟩ := hfail attempt (Nat.le_refl _) (by omega)
      match remaining, hle with
      | r + 1, _ =>
        rw [loopGo_transient_step name runLP b specs attempt r s hs]
        have hrest := ih (attempt + 1) r (by omega)
          (fun k hk1 hk2 => hfail k (by omega) (by omega))
          (by have : attempt + 1 + m = attempt + (m + 1) := by omega
              rw [this]; exact hok)
        rw [hrest]
        simp only [List.range'_succ, List.flatMap_cons, failSegment,
          LoopRes.mk.injEq]
        refine ⟨?_, trivial, by omega⟩
        have hA : attempt + 1 + m = attempt + (m + 1) := by omega
        rw [hA]
        simp [List.append_assoc]

/-- Outcome of the loop when every remaining attempt fails transiently. -/
theorem loopGo_all_fail (name : String) (runLP : Bool) (b : ℚ)
    (specs : Nat → AttemptSpec) :
    ∀ (remaining attempt : Nat),
    (∀ k, attempt ≤ k → k ≤ attempt + remaining →
      ∃ s, (specs k).failAt = some (s, ErrClass.transientE)) →
    (loopGo name runLP b specs attempt remaining).result = .error .transientE ∧
    (loopGo name runLP b specs attempt remaining).attemptsMade =
      attempt + remaining + 1 := by
  intro remaining
  induction remaining with
  | zero =>
      intro attempt hfail
      obtain ⟨s, hs⟩ := hfail attempt (Nat.le_refl _) (by omega)
      rw [loopGo_transient_stop name runLP b specs attempt s hs]
      exact ⟨rfl, rfl⟩
  | succ r ih =>
      intro attempt hfail
      obtain ⟨s, hs⟩ := hfail attempt (Nat.le_refl _) (by omega)
      rw [loopGo_transient_step name runLP b specs attempt r s hs]
      have := ih (attempt + 1) (fun k hk1 hk2 => hfail k (by omega) (by omega))
      exact ⟨this.1, by rw [this.2]; omega⟩

/-- **C1, counterexample.**  The claim orders the recovery steps as: wait
the backoff, then re-establish the connection, then re-verify the base
graph.  On the concrete run with one transient failure followed by success
(`max_retries = 3`, `retry_backoff_s = 2`), the trace contains both a
reconnect and a backoff wait, but the reconnect comes first: the code
re-establishes the connection and re-verifies the base graph *before*
sleeping the backoff. -/
theorem c1_wait_after_reconnect :
    waitPrecedesReconnect (runWindowLoop "w" false 3 2 failThenOk).events = false ∧
    firstIdx isReconnectEv (runWindowLoop "w" false 3 2 failThenOk).events ≠ none ∧
    firstIdx isWaitEv (runWindowLoop "w" false 3 2 failThenOk).events ≠ none := by
  decide

/-- **C1, amended.**  On a transient engine error the controller increments
the attempt counter, re-establishes the connection, re-verifies the base
graph, *then* waits `backoff_base * 2 ^ (attempt - 1)` seconds, and
restarts the same window's whole body from the filter stage; `N ≤
max_retries` consecutive transient failures followed by success make
exactly `N + 1` attempts (covering the claim's `N < max_retries`), with the
`k`-th recovery (0-based) embedded in the trace as reconnect, base-graph
verification, then a `backoff_base * 2 ^ k` wait; and once the failures
exceed the budget — `max_retries + 1` consecutive transient failures — the
error is re-raised as fatal instead of the window being skipped. -/
theorem c1_retry_loop (name : String) (runLP : Bool) (maxRetries N : Nat)
    (b : ℚ) (specs : Nat → AttemptSpec) :
    (N ≤ maxRetries →
      (∀ k, k < N → ∃ s, (specs k).failAt = some (s, ErrClass.transientE)) →
      (specs N).failAt = none →
      (runWindowLoop name runLP maxRetries b specs).result = .ok () ∧
      (runWindowLoop name runLP maxRetries b specs).attemptsMade = N + 1 ∧
      (runWindowLoop name runLP maxRetries b specs).events =
        (List.range N).flatMap (fun k => failSegment name runLP b (specs k) k) ++
          ((attemptRun name runLP (specs N)).1 ++
            [Ev.dropGraph ("temp_" ++ name)])) ∧
    ((∀ k, k ≤ maxRetries → ∃ s, (specs k).failAt = some (s, ErrClass.transientE)) →
      (runWindowLoop name runLP maxRetries b specs).result = .error .transientE ∧
      (runWindowLoop name runLP maxRetries b specs).attemptsMade = maxRetries + 1) := by
  constructor
  · intro hle hfail hok
    have h := loopGo_fail_then_ok name runLP b specs N 0 maxRetries hle
      (fun k _ hk => hfail k (by omega)) (by simpa using hok)
    rw [runWindowLoop, h]
    refine ⟨rfl, by simp, ?_⟩
    simp [List.range_eq_range']
  · intro hfail
    have h := loopGo_all_fail name runLP b specs maxRetries 0
      (fun k _ hk => hfail k (by omega))
    rw [runWindowLoop]
    exact ⟨h.1, by rw [h.2]; omega⟩

/-- **C1, witness.**  The amended theorem on the concrete one-failure
schedule: two attempts, success, and the trace equal to the failed
attempt's segment followed by the clean attempt. -/
theorem c1_witness :
    (runWindowLoop "w" false 3 2 failThenOk).result = .ok () ∧
    (runWindowLoop "w" false 3 2 failThenOk).attemptsMade = 2 := by
  have h := (c1_retry_loop "w" false 3 1 2 failThenOk).1 (by omega)
    (by intro k hk
        match k, hk with
        | 0, _ => exact ⟨Stage.algorithms, rfl⟩)
    (by rfl)
  exact ⟨h.1, h.2.1⟩

/-- **C10.**  With a clean schedule whose link-prediction step raises, the
window still completes: one single attempt (no retry, no fatal abort), a
normal result, the node and edge snapshot writes present in the trace, the
link-prediction error merely logged by its local handler, and a manifest
row with the skipped flag false still appended. -/
theorem c10_lp_failure_contained (name : String) (maxRetries : Nat) (b : ℚ) :
    (runWindowLoop name true maxRetries b
      (fun _ => { failAt := none, lpFails := true })).result = .ok () ∧
    (runWindowLoop name true maxRetries b
      (fun _ => { failAt := none, lpFails := true })).attemptsMade = 1 ∧
    Ev.lpErrorLogged ∈ (runWindowLoop name true maxRetries b
      (fun _ => { failAt := none, lpFails := true })).events ∧
    Ev.writeNodes ∈ (runWindowLoop name true maxRetries b
      (fun _ => { failAt := none, lpFails := true })).events ∧
    Ev.writeEdges ∈ (runWindowLoop name true maxRetries b
      (fun _ => { failAt := none, lpFails := true })).events ∧
    Ev.manifestAppend false ∈ (runWindowLoop name true maxRetries b
      (fun _ => { failAt := none, lpFails := true })).events := by
  rw [runWindowLoop, loopGo_ok name true b _ 0 maxRetries rfl]
  refine ⟨rfl, rfl, ?_, ?_, ?_, ?_⟩ <;>
    simp [attemptRun, stageFail]

/-- `required.difference(existing)` is empty exactly when every required
column is present. -/
theorem missingCols_beq_nil (req ex : List String) :
    (missingCols req ex == []) = true ↔ ∀ c ∈ req, c ∈ ex := by
  rw [beq_iff_eq, missingCols, List.filter_eq_nil_iff]
  simp [List.contains, List.elem_eq_mem]

/-- With the skip-existing flag off, no window is ever skipped. -/
theorem windowSkipped_false (cfg : BConfig) (wf : WinFiles) :
    windowSkipped cfg false wf = false := by
  obtain ⟨nf, ef⟩ := wf
  cases nf <;> simp [windowSkipped, needNodes]

/-- `need_nodes` is off exactly when the node parquet exists with every
required node column (skip-existing enabled). -/
theorem needNodes_eq_false (cfg : BConfig) (wf : WinFiles) :
    needNodes cfg true wf = false ↔
      ∃ f, wf.nodeFile = some f ∧ ∀ c ∈ requiredNodeCols cfg, c ∈ f.cols := by
  obtain ⟨nf, ef⟩ := wf
  cases nf with
  | none => simp [needNodes]
  | some f =>
      simp only [needNodes, Bool.true_and]
      cases hm : missingCols (requiredNodeCols cfg) f.cols == [] with
      | true =>
          have hsub := (missingCols_beq_nil _ _).mp hm
          simp only [hm, if_true]
          simp [hsub]
          exact hsub
      | false =>
          have hns : ¬ ∀ c ∈ requiredNodeCols cfg, c ∈ f.cols := by
            intro hs
            rw [← missingCols_beq_nil (requiredNodeCols cfg) f.cols] at hs
            rw [hs] at hm
            exact absurd hm (by simp)
          simp [hm, hns]

/-- `need_edges` is off exactly when either edge export is disabled or the
edge parquet exists with every required edge column. -/
theorem needEdges_eq_false (cfg : BConfig) (wf : WinFiles) :
    needEdges cfg true wf = false ↔
      (cfg.export_edges = true →
        ∃ g, wf.edgeFile = some g ∧ ∀ c ∈ requiredEdgeCols cfg, c ∈ g.cols) := by
  obtain ⟨nf, ef⟩ := wf
  cases ee : cfg.export_edges with
  | false => simp [needEdges, ee]
  | true =>
      cases ef with
      | none => simp [needEdges, ee]
      | some g =>
          cases hme : missingCols (requiredEdgeCols cfg) g.cols == [] with
          | true =>
              have hsub := (missingCols_beq_nil _ _).mp hme
              simp [needEdges, ee, hme]
              exact hsub
          | false =>
              have hns : ¬ ∀ c ∈ requiredEdgeCols cfg, c ∈ g.cols := by
                intro hs
                rw [← missingCols_beq_nil (requiredEdgeCols cfg) g.cols] at hs
                rw [hs] at hme
                exact absurd hme (by simp)
              simp [needEdges, ee, hme, hns]

/-- The skip decision of `run_windows` (with skip-existing enabled, its
default) agrees with the claim-side condition: the expected output files
exist and contain the full required column set. -/
theorem windowSkipped_iff (cfg : BConfig) (wf : WinFiles) :
    windowSkipped cfg true wf = true ↔ outputsComplete cfg wf := by
  rw [windowSkipped, Bool.and_eq_true, Bool.not_eq_true', Bool.not_eq_true',
    needNodes_eq_false, needEdges_eq_false]
  exact Iff.rfl

/-- Deduplication keeps every element of its input. -/
theorem mem_upoGo (y : String) :
    ∀ (l seen : List String), y ∈ l → y ∉ seen → y ∈ upoGo seen l := by
  intro l
  induction l with
  | nil => intro seen h _; simp at h
  | cons v rest ih =>
      intro seen hy hns
      by_cases hv : v ∈ seen
      · have hc : seen.contains v = true := by
          simp [List.contains, List.elem_eq_mem, hv]
        rw [upoGo, if_pos hc]
        rcases List.mem_cons.mp hy with h | h
        · subst h; exact absurd hv hns
        · exact ih seen h hns
      · have hc : ¬ seen.contains v = true := by
          simp [List.contains, List.elem_eq_mem, hv]
        rw [upoGo, if_neg hc]
        rcases List.mem_cons.mp hy with h | h
        · subst h; exact List.mem_cons_self _ _
        · by_cases hyv : y = v
          · subst hyv; exact List.mem_cons_self _ _
          · exact List.mem_cons_of_mem _
              (ih (v :: seen) h (by simp [List.mem_cons, hyv, hns]))

/-- `_unique_preserve_order` keeps every element. -/
theorem mem_uniquePreserveOrder (y : String) (l : List String) (h : y ∈ l) :
    y ∈ uniquePreserveOrder l :=
  mem_upoGo y l [] h (by simp)

/-- A streamed GDS property ends up in the written node parquet. -/
theorem mem_preBlock_of_streamed (cfg : BConfig) (hf : Bool) (c : String)
    (h : c ∈ streamedProperties cfg hf) : c ∈ preBlockNodeCols cfg hf := by
  apply List.mem_append_left
  apply List.mem_append_left
  apply List.mem_append_left
  apply List.mem_append_left
  apply List.mem_append_left
  apply List.mem_append_right
  exact h

theorem mem_preBlock_of_db (cfg : BConfig) (hf : Bool) (c : String)
    (h : c ∈ dbNodeProperties cfg) : c ∈ preBlockNodeCols cfg hf := by
  apply List.mem_append_left
  apply List.mem_append_left
  apply List.mem_append_left
  apply List.mem_append_left
  apply List.mem_append_right
  exact h

theorem streamed_sub_written (cfg : BConfig) (hf : Bool) (c : String)
    (h : c ∈ streamedProperties cfg hf) : c ∈ writtenNodeCols cfg hf :=
  List.mem_append_left _ (mem_preBlock_of_streamed cfg hf c h)

/-- A database-fetched property ends up in the written node parquet. -/
theorem db_sub_written (cfg : BConfig) (hf : Bool) (c : String)
    (h : c ∈ dbNodeProperties cfg) : c ∈ writtenNodeCols cfg hf :=
  List.mem_append_left _ (mem_preBlock_of_db cfg hf c h)

/-- Every column the skip check requires of the node parquet is written by
a recomputation. -/
theorem requiredNode_sub_written (cfg : BConfig) (hf : Bool) :
    ∀ c ∈ requiredNodeCols cfg, c ∈ writtenNodeCols cfg hf := by
  have hbank : cfg.export_feature_vectors = true ∨ cfg.export_feature_blocks = true →
      "bank_feats" ∈ dbNodeProperties cfg := by
    intro h
    cases hefv : cfg.export_feature_vectors with
    | true => simp [dbNodeProperties, hefv]
    | false =>
        rcases h with h | h
        · rw [hefv] at h; exact absurd h (by simp)
        · simp [dbNodeProperties, hefv, h]
  intro c hc
  simp only [requiredNodeCols, List.mem_append] at hc
  rcases hc with ((h | h) | h) | h
  · cases hefv : cfg.export_feature_vectors with
    | false => simp [hefv] at h
    | true =>
        simp only [hefv, if_true, List.mem_cons, List.not_mem_nil, or_false] at h
        rcases h with rfl | rfl | rfl
        · exact db_sub_written cfg hf _ (hbank (Or.inl hefv))
        · exact db_sub_written cfg hf _ (by simp [dbNodeProperties, hefv])
        · exact streamed_sub_written cfg hf _
            (mem_uniquePreserveOrder "is_dead"
              (algorithmProperties cfg hf ++
                (if cfg.export_feature_vectors then ["is_dead"] else []) ++ ["gds_id"])
              (by simp [hefv]))
  · cases hefb : cfg.export_feature_blocks with
    | false => simp [hefb] at h
    | true =>
        have hb : "bank_feats" ∈ preBlockNodeCols cfg hf :=
          mem_preBlock_of_db cfg hf _ (hbank (Or.inr hefb))
        have hcond : (cfg.export_feature_blocks &&
            (preBlockNodeCols cfg hf).contains "bank_feats") = true := by
          rw [hefb]
          simp [List.contains, List.elem_eq_mem, hb]
        unfold writtenNodeCols
        rw [if_pos hcond]
        apply List.mem_append_right
        simpa [hefb] using h
  · cases hhg : cfg.run_hashgnn with
    | false => simp [hhg] at h
    | true =>
        simp only [hhg, if_true, List.mem_cons, List.not_mem_nil, or_false] at h
        subst h
        exact streamed_sub_written cfg hf _
          (mem_uniquePreserveOrder "hash_gnn_embedding"
            (algorithmProperties cfg hf ++
              (if cfg.export_feature_vectors then ["is_dead"] else []) ++ ["gds_id"])
            (by simp [algorithmProperties, hhg]))
  · cases hnv : cfg.run_node2vec with
    | false => simp [hnv] at h
    | true =>
        simp only [hnv, if_true, List.mem_cons, List.not_mem_nil, or_false] at h
        subst h
        exact streamed_sub_written cfg hf _
          (mem_uniquePreserveOrder "node2vec_embedding"
            (algorithmProperties cfg hf ++
              (if cfg.export_feature_vectors then ["is_dead"] else []) ++ ["gds_id"])
            (by simp [algorithmProperties, hnv]))

/-- Every column the skip check requires of the edge parquet is written by
a recomputation. -/
theorem requiredEdge_sub_written (cfg : BConfig) :
    ∀ c ∈ requiredEdgeCols cfg, c ∈ writtenEdgeCols cfg := by
  intro c hc
  simp only [requiredEdgeCols] at hc
  simp only [writtenEdgeCols, List.mem_append]
  tauto

/-- With the skip-existing flag off, nodes are always recomputed. -/
theorem needNodes_skipE_false (cfg : BConfig) (wf : WinFiles) :
    needNodes cfg false wf = true := by
  obtain ⟨nf, ef⟩ := wf
  cases nf <;> simp [needNodes]

/-- With the skip-existing flag off, edges are recomputed whenever edge
export is on. -/
theorem needEdges_skipE_false (cfg : BConfig) (wf : WinFiles) :
    needEdges cfg false wf = cfg.export_edges := by
  simp [needEdges]

/-- Updating a window's files changes that key. -/
theorem updateFS_self (fs : FS) (w : String) (wf : WinFiles) :
    updateFS fs w wf w = wf := by
  simp [updateFS]

/-- Updating a window's files leaves every other key alone. -/
theorem updateFS_other (fs : FS) (w v : String) (wf : WinFiles) (hv : v ≠ w) :
    updateFS fs w wf v = fs v := by
  simp [updateFS, hv]

/-- The skip branch: files untouched, a skipped row with the existing row
counts, no engine call. -/
theorem processWindow_skip (cfg : BConfig) (sk hf : Bool) (nr er : Nat)
    (fs : FS) (w : String) (h : windowSkipped cfg sk (fs w) = true) :
    processWindow cfg sk hf nr er fs w =
      (fs,
       { window := w
         node_count := ((fs w).nodeFile.map PFile.rows).getD 0
         edge_count := ((fs w).edgeFile.map PFile.rows).getD 0
         skipped_existing := true },
       0) := by
  simp only [processWindow]
  rw [if_pos h]

/-- Processing one window never touches another window's files. -/
theorem processWindow_frame (cfg : BConfig) (sk hf : Bool) (nr er : Nat)
    (fs : FS) (w v : String) (hv : v ≠ w) :
    (processWindow cfg sk hf nr er fs w).1 v = fs v := by
  simp only [processWindow]
  split
  · rfl
  · simp [updateFS, hv]

/-- The appended row names its window. -/
theorem processWindow_row_window (cfg : BConfig) (sk hf : Bool) (nr er : Nat)
    (fs : FS) (w : String) :
    (processWindow cfg sk hf nr er fs w).2.1.window = w := by
  simp only [processWindow]
  split <;> rfl

/-- The appended row's skipped flag is exactly the skip decision. -/
theorem processWindow_row_skipped (cfg : BConfig) (sk hf : Bool) (nr er : Nat)
    (fs : FS) (w : String) :
    (processWindow cfg sk hf nr er fs w).2.1.skipped_existing =
      windowSkipped cfg sk (fs w) := by
  simp only [processWindow]
  cases h : windowSkipped cfg sk (fs w) <;> simp [h]

/-- After the window's body runs (skip or recompute), its expected outputs
are complete. -/
theorem processWindow_complete (cfg : BConfig) (sk hf : Bool) (nr er : Nat)
    (fs : FS) (w : String) :
    outputsComplete cfg ((processWindow cfg sk hf nr er fs w).1 w) := by
  simp only [processWindow]
  cases hs : windowSkipped cfg sk (fs w) with
  | true =>
      cases sk with
      | false => rw [windowSkipped_false] at hs; exact absurd hs (by simp)
      | true => exact (windowSkipped_iff cfg (fs w)).mp hs
  | false =>
      show outputsComplete cfg (updateFS fs w _ w)
      rw [updateFS_self]
      constructor
      · cases hnn : needNodes cfg sk (fs w) with
        | true =>
            refine ⟨⟨writtenNodeCols cfg hf, nr⟩, by simp [hnn], ?_⟩
            exact requiredNode_sub_written cfg hf
        | false =>
            cases sk with
            | false => rw [needNodes_skipE_false] at hnn; exact absurd hnn (by simp)
            | true =>
                obtain ⟨f, hf', hsub⟩ := (needNodes_eq_false cfg (fs w)).mp hnn
                exact ⟨f, by simp [hnn, hf'], hsub⟩
      · intro hee
        cases hne : needEdges cfg sk (fs w) with
        | true =>
            refine ⟨⟨writtenEdgeCols cfg, er⟩, by simp [hne], ?_⟩
            exact requiredEdge_sub_written cfg
        | false =>
            cases sk with
            | false =>
                rw [needEdges_skipE_false, hee] at hne
                exact absurd hne (by simp)
            | true =>
                obtain ⟨g, hg', hsub⟩ := (needEdges_eq_false cfg (fs w)).mp hne hee
                exact ⟨g, by simp [hne, hg'], hsub⟩

/-- The window loop never touches the files of a window outside its list. -/
theorem windowsGo_frame (cfg : BConfig) (sk hf : Bool) (nr er : String → Nat)
    (outc : String → WOutcome) :
    ∀ (ws : List String) (fs : FS) (v : String), v ∉ ws →
      (windowsGo cfg sk hf nr er outc ws fs).2.1 v = fs v := by
  intro ws
  induction ws with
  | nil => intro fs v _; rfl
  | cons w rest ih =>
      intro fs v hv
      have hvw : v ≠ w := fun h => hv (h ▸ List.mem_cons_self w rest)
      have hvr : v ∉ rest := fun h => hv (List.mem_cons_of_mem w h)
      rw [windowsGo]
      cases hs : windowSkipped cfg sk (fs w) with
      | true =>
          rw [if_pos rfl]
          show (windowsGo cfg sk hf nr er outc rest
            (processWindow cfg sk hf (nr w) (er w) fs w).1).2.1 v = fs v
          rw [ih _ v hvr, processWindow_frame cfg sk hf (nr w) (er w) fs w v hvw]
      | false =>
          rw [if_neg (by simp)]
          cases ho : outc w with
          | fatal => rfl
          | ok =>
              show (windowsGo cfg sk hf nr er outc rest
                (processWindow cfg sk hf (nr w) (er w) fs w).1).2.1 v = fs v
              rw [ih _ v hvr, processWindow_frame cfg sk hf (nr w) (er w) fs w v hvw]

/-- The manifest rows name a prefix of the window list, and all of it when
no window ends fatally. -/
theorem windowsGo_names (cfg : BConfig) (sk hf : Bool) (nr er : String → Nat)
    (outc : String → WOutcome) :
    ∀ (ws : List String) (fs : FS),
      ((windowsGo cfg sk hf nr er outc ws fs).1.map MRow.window <+: ws) ∧
      ((∀ w ∈ ws, outc w = .ok) →
        (windowsGo cfg sk hf nr er outc ws fs).1.map MRow.window = ws) := by
  intro ws
  induction ws with
  | nil => intro fs; exact ⟨List.nil_prefix, fun _ => rfl⟩
  | cons w rest ih =>
      intro fs
      rw [windowsGo]
      cases hs : windowSkipped cfg sk (fs w) with
      | true =>
          rw [if_pos rfl]
          constructor
          · show ((processWindow cfg sk hf (nr w) (er w) fs w).2.1 ::
                (windowsGo cfg sk hf nr er outc rest
                  (processWindow cfg sk hf (nr w) (er w) fs w).1).1).map
                MRow.window <+: w :: rest
            rw [List.map_cons, processWindow_row_window]
            obtain ⟨t, ht⟩ :=
              (ih ((processWindow cfg sk hf (nr w) (er w) fs w).1)).1
            exact ⟨t, by rw [List.cons_append, ht]⟩
          · intro hall
            show ((processWindow cfg sk hf (nr w) (er w) fs w).2.1 ::
                (windowsGo cfg sk hf nr er outc rest
                  (processWindow cfg sk hf (nr w) (er w) fs w).1).1).map
                MRow.window = w :: rest
            rw [List.map_cons, processWindow_row_window,
              (ih _).2 (fun x hx => hall x (List.mem_cons_of_mem _ hx))]
      | false =>
          rw [if_neg (by simp)]
          cases ho : outc w with
          | fatal =>
              constructor
              · show (([] : List MRow)).map MRow.window <+: w :: rest
                simp only [List.map_nil]
                exact List.nil_prefix
              · intro hall
                have hcontra := hall w (List.mem_cons_self _ _)
                rw [ho] at hcontra
                exact absurd hcontra (by simp)
          | ok =>
              constructor
              · show ((processWindow cfg sk hf (nr w) (er w) fs w).2.1 ::
                    (windowsGo cfg sk hf nr er outc rest
                      (processWindow cfg sk hf (nr w) (er w) fs w).1).1).map
                    MRow.window <+: w :: rest
                rw [List.map_cons, processWindow_row_window]
                obtain ⟨t, ht⟩ :=
                  (ih ((processWindow cfg sk hf (nr w) (er w) fs w).1)).1
                exact ⟨t, by rw [List.cons_append, ht]⟩
              · intro hall
                show ((processWindow cfg sk hf (nr w) (er w) fs w).2.1 ::
                    (windowsGo cfg sk hf nr er outc rest
                      (processWindow cfg sk hf (nr w) (er w) fs w).1).1).map
                    MRow.window = w :: rest
                rw [List.map_cons, processWindow_row_window,
                  (ih _).2 (fun x hx => hall x (List.mem_cons_of_mem _ hx))]

/-- When every window's outputs are already complete, the loop only skips:
all rows are marked skipped, the filesystem is untouched and zero
remote-engine calls are made. -/
theorem windowsGo_complete (cfg : BConfig) (hf : Bool) (nr er : String → Nat)
    (outc : String → WOutcome) :
    ∀ (ws : List String) (fs : FS),
      (∀ w ∈ ws, outputsComplete cfg (fs w)) →
      (windowsGo cfg true hf nr er outc ws fs).1.map
          (fun r => (r.window, r.skipped_existing)) =
        ws.map (fun w => (w, true)) ∧
      (windowsGo cfg true hf nr er outc ws fs).2.1 = fs ∧
      (windowsGo cfg true hf nr er outc ws fs).2.2.1 = 0 ∧
      (windowsGo cfg true hf nr er outc ws fs).2.2.2 = false := by
  intro ws
  induction ws with
  | nil => intro fs _; exact ⟨rfl, rfl, rfl, rfl⟩
  | cons w rest ih =>
      intro fs hall
      have hs : windowSkipped cfg true (fs w) = true :=
        (windowSkipped_iff cfg (fs w)).mpr (hall w (List.mem_cons_self _ _))
      have hskip := processWindow_skip cfg true hf (nr w) (er w) fs w hs
      have hr1 : (processWindow cfg true hf (nr w) (er w) fs w).1 = fs := by
        rw [hskip]
      have hcalls : (processWindow cfg true hf (nr w) (er w) fs w).2.2 = 0 := by
        rw [hskip]
      have ihr := ih fs (fun x hx => hall x (List.mem_cons_of_mem _ hx))
      rw [windowsGo, if_pos hs]
      refine ⟨?_, ?_, ?_, ?_⟩
      · show ((processWindow cfg true hf (nr w) (er w) fs w).2.1 ::
            (windowsGo cfg true hf nr er outc rest
              (processWindow cfg true hf (nr w) (er w) fs w).1).1).map
            (fun r => (r.window, r.skipped_existing)) = _
        simp only [List.map_cons]
        rw [processWindow_row_window, processWindow_row_skipped, hs, hr1, ihr.1]
      · show (windowsGo cfg true hf nr er outc rest
            (processWindow cfg true hf (nr w) (er w) fs w).1).2.1 = fs
        rw [hr1, ihr.2.1]
      · show (processWindow cfg true hf (nr w) (er w) fs w).2.2 +
            (windowsGo cfg true hf nr er outc rest
              (processWindow cfg true hf (nr w) (er w) fs w).1).2.2.1 = 0
        rw [hcalls, hr1, ihr.2.2.1]
      · show (windowsGo cfg true hf nr er outc rest
            (processWindow cfg true hf (nr w) (er w) fs w).1).2.2.2 = false
        rw [hr1, ihr.2.2.2]

/-- After a run in which no window ends fatally, every window's expected
outputs are complete on disk. -/
theorem windowsGo_all_ok_complete (cfg : BConfig) (hf : Bool)
    (nr er : String → Nat) (outc : String → WOutcome) :
    ∀ (ws : List String) (fs : FS), (∀ w ∈ ws, outc w = .ok) →
      ∀ v ∈ ws,
        outputsComplete cfg ((windowsGo cfg true hf nr er outc ws fs).2.1 v) := by
  intro ws
  induction ws with
  | nil => intro fs _ v hv; simp at hv
  | cons w rest ih =>
      intro fs hall v hv
      have hnext : (windowsGo cfg true hf nr er outc (w :: rest) fs).2.1 =
          (windowsGo cfg true hf nr er outc rest
            (processWindow cfg true hf (nr w) (er w) fs w).1).2.1 := by
        rw [windowsGo]
        cases hs : windowSkipped cfg true (fs w) with
        | true => rw [if_pos rfl]
        | false => rw [if_neg (by simp), hall w (List.mem_cons_self _ _)]
      rw [hnext]
      rcases List.mem_cons.mp hv with h | hvr
      · subst h
        by_cases hvrest : v ∈ rest
        · exact ih _ (fun x hx => hall x (List.mem_cons_of_mem _ hx)) v hvrest
        · rw [windowsGo_frame cfg true hf nr er outc rest _ v hvrest]
          exact processWindow_complete cfg true hf (nr v) (er v) fs v
      · exact ih _ (fun x hx => hall x (List.mem_cons_of_mem _ hx)) v hvr

/-- Schema drift: with exactly one window's node parquet missing a required
column and everything else complete, the loop recomputes exactly that
window (all other rows skipped) and the rewritten parquet contains the
missing column. -/
theorem windowsGo_drift (cfg : BConfig) (hf : Bool) (nr er : String → Nat)
    (outc : String → WOutcome) :
    ∀ (ws : List String) (fs : FS) (w0 : String) (fnode : PFile) (c : String),
      ws.Nodup → w0 ∈ ws →
      (fs w0).nodeFile = some fnode → c ∈ requiredNodeCols cfg →
      c ∉ fnode.cols →
      (∀ w ∈ ws, w ≠ w0 → outputsComplete cfg (fs w)) →
      (∀ w ∈ ws, outc w = .ok) →
      (windowsGo cfg true hf nr er outc ws fs).1.map
          (fun r => (r.window, r.skipped_existing)) =
        ws.map (fun w => (w, decide (w ≠ w0))) ∧
      ∃ f', ((windowsGo cfg true hf nr er outc ws fs).2.1 w0).nodeFile = some f' ∧
        c ∈ f'.cols := by
  intro ws
  induction ws with
  | nil => intro fs w0 fnode c _ hmem; simp at hmem
  | cons w rest ih =>
      intro fs w0 fnode c hnd hmem hnode hcreq hcmiss hcomp hall
      rcases List.mem_cons.mp hmem with h | hmem0
      · subst h
        have hw0rest : w0 ∉ rest := (List.nodup_cons.mp hnd).1
        have hnn : needNodes cfg true (fs w0) = true := by
          cases h : needNodes cfg true (fs w0) with
          | true => rfl
          | false =>
              obtain ⟨f, hsome, hsub⟩ := (needNodes_eq_false cfg (fs w0)).mp h
              rw [hnode] at hsome
              injection hsome with hfe
              subst hfe
              exact absurd (hsub c hcreq) hcmiss
        have hs : windowSkipped cfg true (fs w0) = false := by
          simp [windowSkipped, hnn]
        rw [windowsGo, if_neg (by rw [hs]; simp),
          hall w0 (List.mem_cons_self _ _)]
        have hnewnode :
            ((processWindow cfg true hf (nr w0) (er w0) fs w0).1 w0).nodeFile =
              some ⟨writtenNodeCols cfg hf, nr w0⟩ := by
          simp only [processWindow]
          rw [if_neg (by rw [hs]; simp)]
          show (updateFS fs w0 _ w0).nodeFile = _
          rw [updateFS_self]
          simp [hnn]
        have hrestcomp : ∀ x ∈ rest, outputsComplete cfg
            ((processWindow cfg true hf (nr w0) (er w0) fs w0).1 x) := by
          intro x hx
          have hxne : x ≠ w0 := fun h => hw0rest (h ▸ hx)
          rw [processWindow_frame cfg true hf (nr w0) (er w0) fs w0 x hxne]
          exact hcomp x (List.mem_cons_of_mem _ hx) hxne
        have hrest := windowsGo_complete cfg hf nr er outc rest
          ((processWindow cfg true hf (nr w0) (er w0) fs w0).1) hrestcomp
        constructor
        · show ((processWindow cfg true hf (nr w0) (er w0) fs w0).2.1 ::
              (windowsGo cfg true hf nr er outc rest
                (processWindow cfg true hf (nr w0) (er w0) fs w0).1).1).map
              (fun r => (r.window, r.skipped_existing)) = _
          simp only [List.map_cons]
          rw [processWindow_row_window, processWindow_row_skipped, hs, hrest.1]
          refine congrArg₂ List.cons (by simp) ?_
          refine List.map_congr_left ?_
          intro x hx
          have : x ≠ w0 := fun h => hw0rest (h ▸ hx)
          simp [this]
        · show ∃ f', ((windowsGo cfg true hf nr er outc rest
              (processWindow cfg true hf (nr w0) (er w0) fs w0).1).2.1
              w0).nodeFile = some f' ∧ c ∈ f'.cols
          rw [hrest.2.1]
          exact ⟨_, hnewnode, requiredNode_sub_written cfg hf c hcreq⟩
      · have hwne : w ≠ w0 := fun h => (List.nodup_cons.mp hnd).1 (h ▸ hmem0)
        have hs : windowSkipped cfg true (fs w) = true :=
          (windowSkipped_iff cfg (fs w)).mpr
            (hcomp w (List.mem_cons_self _ _) hwne)
        have hskip := processWindow_skip cfg true hf (nr w) (er w) fs w hs
        have hr1 : (processWindow cfg true hf (nr w) (er w) fs w).1 = fs := by
          rw [hskip]
        have ihr := ih fs w0 fnode c (List.nodup_cons.mp hnd).2 hmem0 hnode
          hcreq hcmiss
          (fun x hx hxne => hcomp x (List.mem_cons_of_mem _ hx) hxne)
          (fun x hx => hall x (List.mem_cons_of_mem _ hx))
        rw [windowsGo, if_pos hs]
        constructor
        · show ((processWindow cfg true hf (nr w) (er w) fs w).2.1 ::
              (windowsGo cfg true hf nr er outc rest
                (processWindow cfg true hf (nr w) (er w) fs w).1).1).map
              (fun r => (r.window, r.skipped_existing)) = _
          simp only [List.map_cons]
          rw [processWindow_row_window, processWindow_row_skipped, hs, hr1, ihr.1]
          simp [hwne]
        · show ∃ f', ((windowsGo cfg true hf nr er outc rest
              (processWindow cfg true hf (nr w) (er w) fs w).1).2.1
              w0).nodeFile = some f' ∧ c ∈ f'.cols
          rw [hr1]
          exact ihr.2

/-- **C2.**  With skip-existing enabled (its default): (1) a window is
skipped iff its expected output files exist with the full required column
set; (2) the skip branch appends a row with the skipped flag set, reads
only existing file metadata for its counts, touches no file and issues no
remote-engine call; (3) after a run with no fatal window, every window's
outputs are complete; (4) hence a second run over fully-written outputs
issues zero remote-engine calls and marks every manifest row skipped; and
(5) an output file missing a required column causes exactly that window to
be recomputed, the new file containing the previously-missing column. -/
theorem c2_skip_and_idempotence (cfg : BConfig) (hf : Bool)
    (nr er : String → Nat) (outc : String → WOutcome) :
    (∀ wf, windowSkipped cfg true wf = true ↔ outputsComplete cfg wf) ∧
    (∀ (fs : FS) (w : String), windowSkipped cfg true (fs w) = true →
      processWindow cfg true hf (nr w) (er w) fs w =
        (fs,
         { window := w
           node_count := ((fs w).nodeFile.map PFile.rows).getD 0
           edge_count := ((fs w).edgeFile.map PFile.rows).getD 0
           skipped_existing := true },
         0)) ∧
    (∀ (ws : List String) (fs : FS), (∀ w ∈ ws, outc w = .ok) → ∀ v ∈ ws,
      outputsComplete cfg ((run_windows cfg true hf nr er outc ws fs).fs v)) ∧
    (∀ (ws : List String) (fs : FS),
      (∀ w ∈ ws, outputsComplete cfg (fs w)) →
      (run_windows cfg true hf nr er outc ws fs).engineCalls = 0 ∧
      (run_windows cfg true hf nr er outc ws fs).manifest.map
          (fun r => (r.window, r.skipped_existing)) =
        ws.map (fun w => (w, true))) ∧
    (∀ (ws : List String) (fs : FS) (w0 : String) (fnode : PFile) (c : String),
      ws.Nodup → w0 ∈ ws →
      (fs w0).nodeFile = some fnode → c ∈ requiredNodeCols cfg →
      c ∉ fnode.cols →
      (∀ w ∈ ws, w ≠ w0 → outputsComplete cfg (fs w)) →
      (∀ w ∈ ws, outc w = .ok) →
      (run_windows cfg true hf nr er outc ws fs).manifest.map
          (fun r => (r.window, r.skipped_existing)) =
        ws.map (fun w => (w, decide (w ≠ w0))) ∧
      ∃ f', ((run_windows cfg true hf nr er outc ws fs).fs w0).nodeFile =
          some f' ∧ c ∈ f'.cols) := by
  refine ⟨windowSkipped_iff cfg, ?_, ?_, ?_, ?_⟩
  · intro fs w h
    exact processWindow_skip cfg true hf (nr w) (er w) fs w h
  · intro ws fs hall v hv
    exact windowsGo_all_ok_complete cfg hf nr er outc ws fs hall v hv
  · intro ws fs hall
    have h := windowsGo_complete cfg hf nr er outc ws fs hall
    exact ⟨h.2.2.1, h.1⟩
  · intro ws fs w0 fnode c hnd hmem hnode hcreq hcmiss hcomp hall
    exact windowsGo_drift cfg hf nr er outc ws fs w0 fnode c hnd hmem hnode
      hcreq hcmiss hcomp hall

/-- **C2, witness.**  The schema-drift part applied to the concrete
two-window fixture: `w1` is complete, `w2`'s node parquet only holds
`bank_feats`; under the default configuration the run skips `w1`,
recomputes `w2`, and its manifest rows read
`[(w1, skipped), (w2, recomputed)]`. -/
theorem c2_witness :
    (run_windows cfgDefault true false (fun _ => 5) (fun _ => 7)
        (fun _ => .ok) ["w1", "w2"] driftFS).manifest.map
      (fun r => (r.window, r.skipped_existing)) = [("w1", true), ("w2", false)] := by
  have h := (c2_skip_and_idempotence cfgDefault false (fun _ => 5) (fun _ => 7)
      (fun _ => .ok)).2.2.2.2 ["w1", "w2"] driftFS "w2" ⟨["bank_feats"], 3⟩
    "network_feats" (by decide) (by decide) rfl (by decide) (by decide)
    (by
      intro w hw hne
      rcases List.mem_cons.mp hw with h | h
      · subst h
        refine ⟨⟨⟨writtenNodeCols cfgDefault false, 5⟩, rfl, ?_⟩,
          fun _ => ⟨⟨writtenEdgeCols cfgDefault, 7⟩, rfl, ?_⟩⟩
        · exact requiredNode_sub_written cfgDefault false
        · exact requiredEdge_sub_written cfgDefault
      · rcases List.mem_cons.mp h with h2 | h2
        · subst h2; exact absurd rfl hne
        · simp at h2)
    (fun _ _ => rfl)
  rw [h.1]
  decide

/-- **C8.**  The manifest file is written exactly once, in the `finally`,
aggregating the rows collected in memory; on every exit of the window loop
— normal completion, fatal abort, or interruption — the written rows name,
in order, exactly the windows that completed or were skipped before the
exit (a prefix of the window list, the whole list when no window ends
fatally). -/
theorem c8_manifest_always_written (cfg : BConfig) (sk hf : Bool)
    (nr er : String → Nat) (outc : String → WOutcome)
    (ws : List String) (fs : FS) :
    (run_windows cfg sk hf nr er outc ws fs).manifestWrites = 1 ∧
    ((run_windows cfg sk hf nr er outc ws fs).manifest.map MRow.window <+: ws) ∧
    ((∀ w ∈ ws, outc w = .ok) →
      (run_windows cfg sk hf nr er outc ws fs).manifest.map MRow.window = ws) := by
  refine ⟨rfl, ?_, ?_⟩
  · exact (windowsGo_names cfg sk hf nr er outc ws fs).1
  · exact (windowsGo_names cfg sk hf nr er outc ws fs).2

/-- **C8, witness.**  The theorem applied to a concrete two-window run with
no fatal outcome: the single manifest write carries both windows' rows. -/
theorem c8_witness :
    (run_windows cfgDefault true false (fun _ => 5) (fun _ => 7)
        (fun _ => .ok) ["a", "b"] emptyFS).manifestWrites = 1 ∧
    (run_windows cfgDefault true false (fun _ => 5) (fun _ => 7)
        (fun _ => .ok) ["a", "b"] emptyFS).manifest.map MRow.window = ["a", "b"] := by
  have h := c8_manifest_always_written cfgDefault true false
    (fun _ => 5) (fun _ => 7) (fun _ => .ok) ["a", "b"] emptyFS
  exact ⟨h.1, h.2.2 (fun w _ => rfl)⟩

/-- **C5, counterexample.**  The claim says the above-threshold pairs are
written back to the persistent graph store, prior predictions being deleted
first (keyed by the prediction-source tag).  On a concrete window where the
workflow emits one prediction above the threshold, its entire graph-store
interaction consists of read queries: it issues no write and no delete —
the predictions are only returned to the pipeline, which writes a per-window
parquet file. -/
theorem c5_no_graph_writeback :
    ((run_link_prediction_workflow simFixture famFixture
        (some ("string_only", fun _ => 1)) (fun _ => true) 0 "rw_x").1.map
      List.length = some 1) ∧
    ((run_link_prediction_workflow simFixture famFixture
        (some ("string_only", fun _ => 1)) (fun _ => true) 0 "rw_x").2.filter
      StoreOp.isWrite = []) := by
  decide

/-- **C5, amended.**  The workflow only reads from the graph store; when a
best model exists, every emitted pair carries a probability strictly above
the threshold and the window/model tags, and every scored candidate above
the threshold is emitted (candidates lacking embeddings are dropped from
scoring when the winning variant uses them); idempotence across re-runs
comes from the pipeline overwriting the window's predicted-edges parquet,
so saving the same result twice equals saving it once — not from any
tag-keyed deletion in the graph store. -/
theorem c5_workflow (simName : List SimRow) (family : List FamRow)
    (race : Option (String × (SimRow → ℚ))) (variant : String)
    (score : SimRow → ℚ) (hasEmb : Nat → Bool) (th : ℚ) (wname : String) :
    ((run_link_prediction_workflow simName family race hasEmb th wname).2.filter
      StoreOp.isWrite = []) ∧
    (∀ l, (run_link_prediction_workflow simName family (some (variant, score))
        hasEmb th wname).1 = some l →
      (∀ e ∈ l, th < e.probability ∧ e.window_graph_name = wname ∧
        e.model_variant = variant) ∧
      (∀ r ∈ scoredCandidates simName family variant hasEmb, th < score r →
        ({ source_id := r.source_id, target_id := r.target_id,
           probability := score r, window_graph_name := wname,
           model_variant := variant } : PredEdge) ∈ l)) ∧
    (∀ prev res, savePredictions (savePredictions prev res) res =
      savePredictions prev res) := by
  refine ⟨?_, ?_, ?_⟩
  · simp only [run_link_prediction_workflow]
    repeat' split
    all_goals rfl
  · intro l hl
    revert hl
    simp only [run_link_prediction_workflow]
    by_cases h1 : simName.isEmpty
    · simp [h1]
    · by_cases h2 : family.isEmpty
      · simp [h1, h2]
      · by_cases h3 : trainingSize simName family < minTrainingSamples
        · simp [h1, h2, h3]
        · by_cases h4 : (simName.filter
              (fun r => !inFamilySet family r.source_id r.target_id)).isEmpty
          · simp only [h1, h2, h3, h4, Bool.false_eq_true, if_false, if_true,
              if_neg, ite_false, ite_true]
            intro hl
            have hl2 : l = [] := by
              by_cases h1' : simName.isEmpty = true
              · exact absurd h1' h1
              · simp [h1, h2, h3, h4] at hl
                exact hl
            subst hl2
            refine ⟨by simp, ?_⟩
            intro r hr _
            exfalso
            have hc : simName.filter
                (fun r => !inFamilySet family r.source_id r.target_id) = [] :=
              List.isEmpty_iff.mp h4
            rw [scoredCandidates, hc] at hr
            simp at hr
          · simp only [h1, h2, h3, h4]
            intro hl
            have hl2 : l = ((scoredCandidates simName family variant
                hasEmb).filter (fun r => th < score r)).map (fun r =>
              { source_id := r.source_id, target_id := r.target_id,
                probability := score r, window_graph_name := wname,
                model_variant := variant }) := by
              simp [h1, h2, h3, h4] at hl
              exact hl.symm
            subst hl2
            constructor
            · intro e he
              obtain ⟨r, hr, rfl⟩ := List.mem_map.mp he
              have := (List.mem_filter.mp hr).2
              exact ⟨by simpa using this, rfl, rfl⟩
            · intro r hr hscore
              exact List.mem_map.mpr
                ⟨r, List.mem_filter.mpr ⟨hr, by simpa using hscore⟩, rfl⟩
  · intro prev res
    cases res with
    | none => rfl
    | some l => cases hl : l.isEmpty <;> simp [savePredictions, hl]

/-- **C5, witness.**  The amended theorem applied to the concrete fixture:
the single emitted prediction exceeds the threshold and carries the window
tag. -/
theorem c5_witness :
    (0 : ℚ) < (PredEdge.mk 1 2 1 "rw_x" "string_only").probability ∧
    (PredEdge.mk 1 2 1 "rw_x" "string_only").window_graph_name = "rw_x" := by
  have h := ((c5_workflow simFixture famFixture
      (some ("string_only", fun _ => 1)) "string_only" (fun _ => 1)
      (fun _ => true) (0 : ℚ) "rw_x").2.1
    [PredEdge.mk 1 2 1 "rw_x" "string_only"]
    (by decide)).1
    (PredEdge.mk 1 2 1 "rw_x" "string_only")
    (by decide)
  exact ⟨h.1, h.2.1⟩

/-- The rollover loop's invariant: a positive period index stays positive,
and the absolute month of (year, period) is preserved, where one period
spans `m` months and a year holds `p` periods (`m * p = 12`). -/
theorem rollover_inv (p : Nat) (m : Int) (hp : 0 < p) (hm : m * p = 12) :
    ∀ (q : Nat) (y : Int), 1 ≤ q →
      1 ≤ (rollover p q y).1 ∧
      12 * (rollover p q y).2 + m * (((rollover p q y).1 : Int) - 1) =
        12 * y + m * ((q : Int) - 1) := by
  intro q
  induction q using Nat.strong_induction_on with
  | _ q ih =>
      intro y hq
      rw [rollover]
      split
      · rename_i h
        have hsub : 1 ≤ q - p := by omega
        have := ih (q - p) (Nat.sub_lt (by omega) hp) (y + 1) hsub
        refine ⟨this.1, ?_⟩
        rw [this.2]
        have hcast : ((q - p : Nat) : Int) = (q : Int) - p :=
          Int.ofNat_sub (le_of_lt h.2)
        rw [hcast]
        linear_combination -hm
      · exact ⟨hq, rfl⟩

/-- `period_start_ms` for a quarter, in months. -/
theorem period_start_months_quarter (y : Int) (q : Nat) (hq : 1 ≤ q) :
    period_start_months y (some q) none none = 12 * y + 3 * ((q : Int) - 1) := by
  have hq0 : q ≠ 0 := by omega
  simp only [period_start_months, monthNumOf, truthy]
  rw [if_pos (by simp [hq0]), Option.getD_some,
    show (q - 1) * 3 + 1 - 1 = (q - 1) * 3 from by omega]
  push_cast [Nat.cast_sub hq]
  ring

/-- `period_start_ms` for a half-year, in months. -/
theorem period_start_months_half (y : Int) (h : Nat) (hh : 1 ≤ h) :
    period_start_months y none (some h) none = 12 * y + 6 * ((h : Int) - 1) := by
  have hh0 : h ≠ 0 := by omega
  simp only [period_start_months, monthNumOf, truthy]
  rw [if_neg (by simp), if_pos (by simp [hh0]), Option.getD_some,
    show (h - 1) * 6 + 1 - 1 = (h - 1) * 6 from by omega]
  push_cast [Nat.cast_sub hh]
  ring

/-- `period_start_ms` for a month, in months. -/
theorem period_start_months_month (y : Int) (mo : Nat) (hmo : 1 ≤ mo) :
    period_start_months y none none (some mo) = 12 * y + 1 * ((mo : Int) - 1) := by
  have h0 : mo ≠ 0 := by omega
  simp only [period_start_months, monthNumOf, truthy]
  rw [if_neg (by simp), if_neg (by simp), if_pos (by simp [h0]),
    Option.getD_some]
  push_cast [Nat.cast_sub hmo]
  ring

/-- Start and end of a quarterly window: the start sits at its (year,
quarter) month and the end exactly `3 * size` months later — the rollover
arithmetic is exact across year boundaries. -/
theorem mkQuarterWindow_spec (size : Nat) (y : Int) (q : Nat) (hq : 1 ≤ q) :
    (mkQuarterWindow size y q).start_months = 12 * y + 3 * ((q : Int) - 1) ∧
    (mkQuarterWindow size y q).end_months =
      (mkQuarterWindow size y q).start_months + 3 * size := by
  have hinv := rollover_inv 4 3 (by norm_num) (by norm_num) (q + size) y (by omega)
  have hstart : (mkQuarterWindow size y q).start_months =
      12 * y + 3 * ((q : Int) - 1) := period_start_months_quarter y q hq
  refine ⟨hstart, ?_⟩
  show period_start_months (rollover 4 (q + size) y).2
    (some (rollover 4 (q + size) y).1) none none = _
  rw [period_start_months_quarter _ _ hinv.1, hstart]
  have h2 := hinv.2
  push_cast at h2 ⊢
  linarith

/-- Start and end of a biannual window. -/
theorem mkHalfWindow_spec (size : Nat) (y : Int) (h : Nat) (hh : 1 ≤ h) :
    (mkHalfWindow size y h).start_months = 12 * y + 6 * ((h : Int) - 1) ∧
    (mkHalfWindow size y h).end_months =
      (mkHalfWindow size y h).start_months + 6 * size := by
  have hinv := rollover_inv 2 6 (by norm_num) (by norm_num) (h + size) y (by omega)
  have hstart : (mkHalfWindow size y h).start_months =
      12 * y + 6 * ((h : Int) - 1) := period_start_months_half y h hh
  refine ⟨hstart, ?_⟩
  show period_start_months (rollover 2 (h + size) y).2 none
    (some (rollover 2 (h + size) y).1) none = _
  rw [period_start_months_half _ _ hinv.1, hstart]
  have h2 := hinv.2
  push_cast at h2 ⊢
  linarith

/-- Start and end of a monthly window. -/
theorem mkMonthWindow_spec (size : Nat) (y : Int) (mo : Nat) (hmo : 1 ≤ mo) :
    (mkMonthWindow size y mo).start_months = 12 * y + 1 * ((mo : Int) - 1) ∧
    (mkMonthWindow size y mo).end_months =
      (mkMonthWindow size y mo).start_months + 1 * size := by
  have hinv := rollover_inv 12 1 (by norm_num) (by norm_num) (mo + size) y (by omega)
  have hstart : (mkMonthWindow size y mo).start_months =
      12 * y + 1 * ((mo : Int) - 1) := period_start_months_month y mo hmo
  refine ⟨hstart, ?_⟩
  show period_start_months (rollover 12 (mo + size) y).2 none none
    (some (rollover 12 (mo + size) y).1) = _
  rw [period_start_months_month _ _ hinv.1, hstart]
  have h2 := hinv.2
  push_cast at h2 ⊢
  linarith

/-- Start and end of a yearly window. -/
theorem mkYearWindow_spec (size : Nat) (y : Int) :
    (mkYearWindow size y).start_months = 12 * y ∧
    (mkYearWindow size y).end_months =
      (mkYearWindow size y).start_months + 12 * size := by
  constructor
  · rfl
  · show year_start_months (y + size) = year_start_months y + 12 * size
    simp [year_start_months]
    ring

/-- Length of the year loop: `p` windows per year. -/
theorem periodLoop_length (inner : Int → List Window) (p : Nat)
    (hlen : ∀ y, (inner y).length = p) :
    ∀ (n : Nat) (y : Int), (periodLoop inner y n).length = p * n := by
  intro n
  induction n with
  | zero => intro y; simp [periodLoop]
  | succ n ih =>
      intro y
      rw [periodLoop, List.length_append, hlen, ih]
      ring

/-- Indexing the year loop: element `j` lives in year `y + j / p` at
in-year position `j % p`. -/
theorem periodLoop_getElem (inner : Int → List Window) (p : Nat) (hp : 0 < p)
    (hlen : ∀ y, (inner y).length = p) :
    ∀ (n : Nat) (y : Int) (j : Nat), j < p * n →
      (periodLoop inner y n)[j]? = (inner (y + ((j / p : Nat) : Int)))[j % p]? := by
  intro n
  induction n with
  | zero => intro y j hj; exact absurd hj (by simp)
  | succ n ih =>
      intro y j hj
      rw [periodLoop]
      by_cases hjp : j < p
      · rw [List.getElem?_append, if_pos (by rw [hlen]; omega)]
        rw [Nat.div_eq_of_lt hjp, Nat.mod_eq_of_lt hjp]
        simp
      · push_neg at hjp
        rw [List.getElem?_append, if_neg (by rw [hlen]; omega), hlen]
        have hexp : p * (n + 1) = p * n + p := by ring
        rw [ih (y + 1) (j - p) (by omega)]
        rw [Nat.div_eq_sub_div hp hjp, Nat.mod_eq_sub_mod hjp]
        have hy : (y + 1) + (((j - p) / p : Nat) : Int)
            = y + (((j - p) / p + 1 : Nat) : Int) := by push_cast; ring
        rw [hy]

/-- Element `j` of the quarterly inner loop. -/
theorem quarterInner_getElem (size : Nat) (y : Int) (j : Nat) (hj : j < 4) :
    (quarterInner size y)[j]? = some (mkQuarterWindow size y (j + 1)) := by
  unfold quarterInner
  rw [List.getElem?_map, List.getElem?_range hj]
  rfl

/-- Element `j` of the biannual inner loop. -/
theorem halfInner_getElem (size : Nat) (y : Int) (j : Nat) (hj : j < 2) :
    (halfInner size y)[j]? = some (mkHalfWindow size y (j + 1)) := by
  unfold halfInner
  rw [List.getElem?_map, List.getElem?_range hj]
  rfl

/-- Element `j` of the monthly inner loop. -/
theorem monthInner_getElem (size : Nat) (y : Int) (j : Nat) (hj : j < 12) :
    (monthInner size y)[j]? = some (mkMonthWindow size y (j + 1)) := by
  unfold monthInner
  rw [List.getElem?_map, List.getElem?_range hj]
  rfl

/-- `everyNthGo` walks the list picking indices `c, c + k, c + 2k, ...`. -/
theorem everyNthGo_getElem {α : Type} (k : Nat) (hk : 1 ≤ k) :
    ∀ (l : List α) (c j : Nat), (everyNthGo k l c)[j]? = l[c + j * k]? := by
  intro l
  induction l with
  | nil => intro c j; simp [everyNthGo]
  | cons x xs ih =>
      intro c j
      cases c with
      | zero =>
          cases j with
          | zero => simp [everyNthGo]
          | succ j =>
              rw [everyNthGo, List.getElem?_cons_succ, ih (k - 1) j]
              rw [show 0 + (j + 1) * k = ((k - 1) + j * k) + 1 from by
                have hx : (j + 1) * k = j * k + k := by ring
                omega]
              rw [List.getElem?_cons_succ]
      | succ c =>
          rw [everyNthGo, ih c j,
            show (c + 1) + j * k = (c + j * k) + 1 from by omega,
            List.getElem?_cons_succ]

/-- Python slicing `l[::k]` (as applied by `applyStep`) selects exactly the
indices that are multiples of `k`. -/
theorem applyStep_getElem {α : Type} (l : List α) (k : Nat) (hk : 1 ≤ k)
    (j : Nat) : (applyStep l k)[j]? = l[j * k]? := by
  unfold applyStep everyNth
  split
  · rw [everyNthGo_getElem k hk l 0 j, Nat.zero_add]
  · rename_i h
    have hk1 : k = 1 := by omega
    subst hk1
    rw [Nat.mul_one]

/-- Shape of element `i` of the quarterly branch output. -/
theorem quarterly_elem (size step : Nat) (hstep : 1 ≤ step) (y0 : Int)
    (n i : Nat) (w : Window)
    (hw : (applyStep (periodLoop (quarterInner size) y0 n) step)[i]? = some w) :
    w = mkQuarterWindow size (y0 + ((i * step / 4 : Nat) : Int))
      (i * step % 4 + 1) := by
  rw [applyStep_getElem _ step hstep i] at hw
  have hlen := periodLoop_length (quarterInner size) 4
    (fun y => by simp [quarterInner]) n y0
  have hlt : i * step < 4 * n := by
    by_contra h
    rw [List.getElem?_eq_none (by omega)] at hw
    exact Option.noConfusion hw
  rw [periodLoop_getElem (quarterInner size) 4 (by norm_num)
    (fun y => by simp [quarterInner]) n y0 _ hlt] at hw
  rw [quarterInner_getElem size _ _ (Nat.mod_lt _ (by norm_num))] at hw
  injection hw with h
  exact h.symm

/-- Shape of element `i` of the biannual branch output. -/
theorem biannual_elem (size step : Nat) (hstep : 1 ≤ step) (y0 : Int)
    (n i : Nat) (w : Window)
    (hw : (applyStep (periodLoop (halfInner size) y0 n) step)[i]? = some w) :
    w = mkHalfWindow size (y0 + ((i * step / 2 : Nat) : Int))
      (i * step % 2 + 1) := by
  rw [applyStep_getElem _ step hstep i] at hw
  have hlen := periodLoop_length (halfInner size) 2
    (fun y => by simp [halfInner]) n y0
  have hlt : i * step < 2 * n := by
    by_contra h
    rw [List.getElem?_eq_none (by omega)] at hw
    exact Option.noConfusion hw
  rw [periodLoop_getElem (halfInner size) 2 (by norm_num)
    (fun y => by simp [halfInner]) n y0 _ hlt] at hw
  rw [halfInner_getElem size _ _ (Nat.mod_lt _ (by norm_num))] at hw
  injection hw with h
  exact h.symm

/-- Shape of element `i` of the monthly branch output. -/
theorem monthly_elem (size step : Nat) (hstep : 1 ≤ step) (y0 : Int)
    (n i : Nat) (w : Window)
    (hw : (applyStep (periodLoop (monthInner size) y0 n) step)[i]? = some w) :
    w = mkMonthWindow size (y0 + ((i * step / 12 : Nat) : Int))
      (i * step % 12 + 1) := by
  rw [applyStep_getElem _ step hstep i] at hw
  have hlen := periodLoop_length (monthInner size) 12
    (fun y => by simp [monthInner]) n y0
  have hlt : i * step < 12 * n := by
    by_contra h
    rw [List.getElem?_eq_none (by omega)] at hw
    exact Option.noConfusion hw
  rw [periodLoop_getElem (monthInner size) 12 (by norm_num)
    (fun y => by simp [monthInner]) n y0 _ hlt] at hw
  rw [monthInner_getElem size _ _ (Nat.mod_lt _ (by norm_num))] at hw
  injection hw with h
  exact h.symm

/-- Shape of element `i` of the yearly branch output. -/
theorem yearly_elem (size s : Nat) (a b : Int) (i : Nat) (w : Window)
    (hw : ((pyRange a b s).map (mkYearWindow size))[i]? = some w) :
    w = mkYearWindow size (a + (s : Int) * i) := by
  have hlen : i < ((pyRange a b s).map (mkYearWindow size)).length := by
    by_contra h
    rw [List.getElem?_eq_none (by omega)] at hw
    exact Option.noConfusion hw
  unfold pyRange at hw
  rw [List.getElem?_map, List.getElem?_map,
    List.getElem?_range (by simpa [pyRange] using hlen)] at hw
  injection hw with h
  exact h.symm

/-- Start month of element `i` of the quarterly branch: affine in `i`
with slope `3 * step` months. -/
theorem quarterly_start (size step : Nat) (hstep : 1 ≤ step) (y0 : Int)
    (n i : Nat) (w : Window)
    (hw : (applyStep (periodLoop (quarterInner size) y0 n) step)[i]? = some w) :
    w.start_months = 12 * y0 + 3 * ((i * step : Nat) : Int) := by
  have hsh := quarterly_elem size step hstep y0 n i w hw
  subst hsh
  rw [(mkQuarterWindow_spec size (y0 + ((i * step / 4 : Nat) : Int))
    (i * step % 4 + 1) (by omega)).1]
  omega

/-- Start month of element `i` of the biannual branch. -/
theorem biannual_start (size step : Nat) (hstep : 1 ≤ step) (y0 : Int)
    (n i : Nat) (w : Window)
    (hw : (applyStep (periodLoop (halfInner size) y0 n) step)[i]? = some w) :
    w.start_months = 12 * y0 + 6 * ((i * step : Nat) : Int) := by
  have hsh := biannual_elem size step hstep y0 n i w hw
  subst hsh
  rw [(mkHalfWindow_spec size (y0 + ((i * step / 2 : Nat) : Int))
    (i * step % 2 + 1) (by omega)).1]
  omega

/-- Start month of element `i` of the monthly branch. -/
theorem monthly_start (size step : Nat) (hstep : 1 ≤ step) (y0 : Int)
    (n i : Nat) (w : Window)
    (hw : (applyStep (periodLoop (monthInner size) y0 n) step)[i]? = some w) :
    w.start_months = 12 * y0 + 1 * ((i * step : Nat) : Int) := by
  have hsh := monthly_elem size step hstep y0 n i w hw
  subst hsh
  rw [(mkMonthWindow_spec size (y0 + ((i * step / 12 : Nat) : Int))
    (i * step % 12 + 1) (by omega)).1]
  omega

/-- **C7** — For all valid planner inputs (positive window size, positive
step size, last-start year not before the start year, recognized
granularity), every window produced by `iter_period_windows` has an end
strictly after its start and equal to the start plus `window_size` periods
of the chosen granularity; consecutive windows' starts are strictly
increasing and differ by exactly `step_size` periods; and year rollover is
exact: a quarterly window starting at quarter 4 of year `Y` with size 1
ends exactly at quarter 1 of year `Y + 1`. -/
theorem c7_window_planner
    (start_year end_start_year window_size step_size : Int) (pt : String)
    (g : PeriodType) (windows : List Window)
    (hg : PeriodType.ofString pt = some g)
    (hok : iter_period_windows start_year end_start_year window_size step_size pt
      = .ok windows) :
    (∀ w ∈ windows,
      w.start_months < w.end_months ∧
      w.end_months = w.start_months + monthsPer g * window_size) ∧
    (∀ (i : Nat) (w w' : Window), windows[i]? = some w →
      windows[i + 1]? = some w' →
      w.start_months < w'.start_months ∧
      w'.start_months = w.start_months + monthsPer g * step_size) ∧
    (∀ w ∈ windows, w.quarter = some 4 → window_size = 1 →
      w.end_months = period_start_months (w.start_year + 1) (some 1) none none)
    := by
  have hws : 0 < window_size := by
    by_contra h
    push_neg at h
    unfold iter_period_windows at hok
    rw [if_pos h] at hok
    exact Except.noConfusion hok
  have hss : 0 < step_size := by
    by_contra h
    push_neg at h
    unfold iter_period_windows at hok
    rw [if_neg (by omega), if_pos h] at hok
    exact Except.noConfusion hok
  have hcastw : ((window_size.toNat : Int)) = window_size :=
    Int.toNat_of_nonneg (by omega)
  have hcasts : ((step_size.toNat : Int)) = step_size :=
    Int.toNat_of_nonneg (by omega)
  have hyr : start_year ≤ end_start_year := by
    by_contra h
    push_neg at h
    unfold iter_period_windows at hok
    rw [if_neg (by omega), if_neg (by omega), if_pos h] at hok
    exact Except.noConfusion hok
  have hstep1 : 1 ≤ step_size.toNat := by omega
  have hsize1 : 1 ≤ window_size.toNat := by omega
  unfold iter_period_windows at hok
  rw [if_neg (by omega), if_neg (by omega), if_neg (by omega), hg] at hok
  cases g with
  | yearly =>
      have hwin : windows = (pyRange start_year (end_start_year + 1)
          step_size.toNat).map (mkYearWindow window_size.toNat) := by
        injection hok with h
        exact h.symm
      subst hwin
      refine ⟨?_, ?_, ?_⟩
      · intro w hw
        obtain ⟨i, hi⟩ := List.mem_iff_getElem?.mp hw
        have hsh := yearly_elem window_size.toNat step_size.toNat start_year
          (end_start_year + 1) i w hi
        subst hsh
        have hspec := mkYearWindow_spec window_size.toNat
          (start_year + (step_size.toNat : Int) * i)
        refine ⟨?_, ?_⟩
        · rw [hspec.2]
          omega
        · rw [hspec.2, show monthsPer PeriodType.yearly = 12 from rfl, hcastw]
      · intro i w w' hwi hwi'
        have h1 := yearly_elem window_size.toNat step_size.toNat start_year
          (end_start_year + 1) i w hwi
        have h2 := yearly_elem window_size.toNat step_size.toNat start_year
          (end_start_year + 1) (i + 1) w' hwi'
        subst h1
        subst h2
        have heq : (mkYearWindow window_size.toNat
              (start_year + (step_size.toNat : Int) * (i + 1 : Nat))).start_months
            = (mkYearWindow window_size.toNat
              (start_year + (step_size.toNat : Int) * i)).start_months
              + monthsPer PeriodType.yearly * step_size := by
          rw [(mkYearWindow_spec _ _).1, (mkYearWindow_spec _ _).1,
            show monthsPer PeriodType.yearly = 12 from rfl, hcasts]
          push_cast
          ring
        refine ⟨?_, heq⟩
        rw [heq, show monthsPer PeriodType.yearly = 12 from rfl]
        omega
      · intro w hw hq4 _
        obtain ⟨i, hi⟩ := List.mem_iff_getElem?.mp hw
        have hsh := yearly_elem window_size.toNat step_size.toNat start_year
          (end_start_year + 1) i w hi
        subst hsh
        simp only [mkYearWindow] at hq4
        exact Option.noConfusion hq4
  | quarterly =>
      have hwin : windows = applyStep (periodLoop
          (quarterInner window_size.toNat) start_year
          (yearSpanCount start_year end_start_year)) step_size.toNat := by
        injection hok with h
        exact h.symm
      subst hwin
      refine ⟨?_, ?_, ?_⟩
      · intro w hw
        obtain ⟨i, hi⟩ := List.mem_iff_getElem?.mp hw
        have hsh := quarterly_elem window_size.toNat step_size.toNat hstep1
          start_year (yearSpanCount start_year end_start_year) i w hi
        subst hsh
        have hspec := mkQuarterWindow_spec window_size.toNat
          (start_year + ((i * step_size.toNat / 4 : Nat) : Int))
          (i * step_size.toNat % 4 + 1) (by omega)
        refine ⟨?_, ?_⟩
        · rw [hspec.2]
          omega
        · rw [hspec.2, show monthsPer PeriodType.quarterly = 3 from rfl, hcastw]
      · intro i w w' hwi hwi'
        have h1 := quarterly_start window_size.toNat step_size.toNat hstep1
          start_year (yearSpanCount start_year end_start_year) i w hwi
        have h2 := quarterly_start window_size.toNat step_size.toNat hstep1
          start_year (yearSpanCount start_year end_start_year) (i + 1) w' hwi'
        have hmul : (i + 1) * step_size.toNat
            = i * step_size.toNat + step_size.toNat := by ring
        have heq : w'.start_months = w.start_months
            + monthsPer PeriodType.quarterly * step_size := by
          rw [h1, h2, hmul, show monthsPer PeriodType.quarterly = 3 from rfl]
          omega
        refine ⟨?_, heq⟩
        rw [heq, show monthsPer PeriodType.quarterly = 3 from rfl]
        omega
      · intro w hw hq4 hws1
        obtain ⟨i, hi⟩ := List.mem_iff_getElem?.mp hw
        have hsh := quarterly_elem window_size.toNat step_size.toNat hstep1
          start_year (yearSpanCount start_year end_start_year) i w hi
        subst hsh
        simp only [mkQuarterWindow, Option.some.injEq] at hq4
        have hspec := mkQuarterWindow_spec window_size.toNat
          (start_year + ((i * step_size.toNat / 4 : Nat) : Int))
          (i * step_size.toNat % 4 + 1) (by omega)
        rw [hspec.2, hspec.1,
          show (mkQuarterWindow window_size.toNat
            (start_year + ((i * step_size.toNat / 4 : Nat) : Int))
            (i * step_size.toNat % 4 + 1)).start_year
          = start_year + ((i * step_size.toNat / 4 : Nat) : Int) from rfl,
          period_start_months_quarter _ 1 (by omega)]
        have hsz : window_size.toNat = 1 := by omega
        rw [hsz]
        omega
  | biannual =>
      have hwin : windows = applyStep (periodLoop
          (halfInner window_size.toNat) start_year
          (yearSpanCount start_year end_start_year)) step_size.toNat := by
        injection hok with h
        exact h.symm
      subst hwin
      refine ⟨?_, ?_, ?_⟩
      · intro w hw
        obtain ⟨i, hi⟩ := List.mem_iff_getElem?.mp hw
        have hsh := biannual_elem window_size.toNat step_size.toNat hstep1
          start_year (yearSpanCount start_year end_start_year) i w hi
        subst hsh
        have hspec := mkHalfWindow_spec window_size.toNat
          (start_year + ((i * step_size.toNat / 2 : Nat) : Int))
          (i * step_size.toNat % 2 + 1) (by omega)
        refine ⟨?_, ?_⟩
        · rw [hspec.2]
          omega
        · rw [hspec.2, show monthsPer PeriodType.biannual = 6 from rfl, hcastw]
      · intro i w w' hwi hwi'
        have h1 := biannual_start window_size.toNat step_size.toNat hstep1
          start_year (yearSpanCount start_year end_start_year) i w hwi
        have h2 := biannual_start window_size.toNat step_size.toNat hstep1
          start_year (yearSpanCount start_year end_start_year) (i + 1) w' hwi'
        have hmul : (i + 1) * step_size.toNat
            = i * step_size.toNat + step_size.toNat := by ring
        have heq : w'.start_months = w.start_months
            + monthsPer PeriodType.biannual * step_size := by
          rw [h1, h2, hmul, show monthsPer PeriodType.biannual = 6 from rfl]
          omega
        refine ⟨?_, heq⟩
        rw [heq, show monthsPer PeriodType.biannual = 6 from rfl]
        omega
      · intro w hw hq4 _
        obtain ⟨i, hi⟩ := List.mem_iff_getElem?.mp hw
        have hsh := biannual_elem window_size.toNat step_size.toNat hstep1
          start_year (yearSpanCount start_year end_start_year) i w hi
        subst hsh
        simp only [mkHalfWindow] at hq4
        exact Option.noConfusion hq4
  | monthly =>
      have hwin : windows = applyStep (periodLoop
          (monthInner window_size.toNat) start_year
          (yearSpanCount start_year end_start_year)) step_size.toNat := by
        injection hok with h
        exact h.symm
      subst hwin
      refine ⟨?_, ?_, ?_⟩
      · intro w hw
        obtain ⟨i, hi⟩ := List.mem_iff_getElem?.mp hw
        have hsh := monthly_elem window_size.toNat step_size.toNat hstep1
          start_year (yearSpanCount start_year end_start_year) i w hi
        subst hsh
        have hspec := mkMonthWindow_spec window_size.toNat
          (start_year + ((i * step_size.toNat / 12 : Nat) : Int))
          (i * step_size.toNat % 12 + 1) (by omega)
        refine ⟨?_, ?_⟩
        · rw [hspec.2]
          omega
        · rw [hspec.2, show monthsPer PeriodType.monthly = 1 from rfl, hcastw]
      · intro i w w' hwi hwi'
        have h1 := monthly_start window_size.toNat step_size.toNat hstep1
          start_year (yearSpanCount start_year end_start_year) i w hwi
        have h2 := monthly_start window_size.toNat step_size.toNat hstep1
          start_year (yearSpanCount start_year end_start_year) (i + 1) w' hwi'
        have hmul : (i + 1) * step_size.toNat
            = i * step_size.toNat + step_size.toNat := by ring
        have heq : w'.start_months = w.start_months
            + monthsPer PeriodType.monthly * step_size := by
          rw [h1, h2, hmul, show monthsPer PeriodType.monthly = 1 from rfl]
          omega
        refine ⟨?_, heq⟩
        rw [heq, show monthsPer PeriodType.monthly = 1 from rfl]
        omega
      · intro w hw hq4 _
        obtain ⟨i, hi⟩ := List.mem_iff_getElem?.mp hw
        have hsh := monthly_elem window_size.toNat step_size.toNat hstep1
          start_year (yearSpanCount start_year end_start_year) i w hi
        subst hsh
        simp only [mkMonthWindow] at hq4
        exact Option.noConfusion hq4

/-- Witness for C7 at a concrete input: planning `2009..2009`, size 1,
step 1, "quarterly" succeeds, and its Q4 window rolls over exactly to
quarter 1 of 2010. -/
theorem c7_witness :
    iter_period_windows 2009 2009 1 1 "quarterly"
        = .ok (applyStep (periodLoop (quarterInner 1) 2009
            (yearSpanCount 2009 2009)) 1) ∧
    (mkQuarterWindow 1 2009 4).end_months
      = period_start_months ((mkQuarterWindow 1 2009 4).start_year + 1)
          (some 1) none none := by
  have hmem : mkQuarterWindow 1 2009 4 ∈ applyStep (periodLoop (quarterInner 1)
      2009 (yearSpanCount 2009 2009)) 1 := by
    have h1 : applyStep (periodLoop (quarterInner 1) 2009
        (yearSpanCount 2009 2009)) 1 = quarterInner 1 2009 := by
      rw [show yearSpanCount 2009 2009 = 1 from rfl, applyStep,
        if_neg (by norm_num)]
      show quarterInner 1 2009 ++ periodLoop (quarterInner 1) (2009 + 1) 0
        = quarterInner 1 2009
      rw [periodLoop, List.append_nil]
    rw [h1]
    unfold quarterInner
    exact List.mem_map.mpr ⟨3, by decide, rfl⟩
  refine ⟨rfl, ?_⟩
  exact (c7_window_planner 2009 2009 1 1 "quarterly" PeriodType.quarterly
    (applyStep (periodLoop (quarterInner 1) 2009 (yearSpanCount 2009 2009)) 1)
    rfl rfl).2.2 (mkQuarterWindow 1 2009 4) hmem rfl rfl

end RW
